import Mathlib

/-!
A Lean model of `src/goresize.go` (goresize).

The Go program resizes every `*.jpg` of an input directory with a pool of
goroutines bounded by a buffered channel.  This file embeds

* the package constants and globals (`Config`, the three statistics counters),
* `isFatal`, `doResizeOneImage` (with the body of `sizeOfFile` at its call site),
  `doFromDirScan` and `main`,
* the part of Go's `path/filepath` (Unix flavour) the program calls,

and proves properties of them.  Goroutines are modelled by an interleaving
small-step machine: one program counter per goroutine, one atomic step per
source statement, and every `x += e` on a shared global split into its load and
its store (Go gives a plain assignment no atomicity).  `uint` is 64 bits wide.
`float64` values are idealised by exact rationals.
-/

namespace Goresize

/-! ## Constants (lines 35-52) -/

def default_out_dir : String := "1. Для просмотра и интернета"
def default_from_dir : String := "2. Для печати и дизайна"
def default_out_width : Nat := 1920
def default_out_height : Nat := 1920
def default_compress_rate : Nat := 89
def picture_extension : String := "jpg"
def attention : String := "ATTENTION: "
def from_dir_s : String := "input directory of original images"
def out_dir_s : String := "output directory for resized images"
def compr_rate_s : String := "jpeg compression rate"
def res_max_width_s : String := "resized image max width"
def res_max_height_s : String := "resized image max height"
def author_s : String := "coded by github.com/pavelveter with golang"

/-- Number of values of Go's `uint` on a 64-bit target. -/
def uintMod : Nat := 2 ^ 64

/-- Go conversion `int(u)` of a `uint`: two's complement reinterpretation. -/
def intOfUint (u : Nat) : Int :=
  if u % uintMod < 2 ^ 63 then ((u % uintMod : Nat) : Int) else ((u % uintMod : Nat) : Int) - 2 ^ 64

/-- Go conversion `uint(i)` of an `int` or `int64`. -/
def uintOfInt (i : Int) : Nat := (i % (2 ^ 64 : Int)).toNat

/-! ## The observable world: terminal, logger, filesystem trace, exit status -/

inductive Color where
  | default | red | green
  deriving DecidableEq

/-- Destination of the standard logger: `os.Stderr` at start, or `io.Discard`. -/
inductive LogWriter where
  | stderr | discard
  deriving DecidableEq

/-- Filesystem calls, in the order the program issues them. -/
inductive FsOp where
  | stat (path : String)
  | glob (pattern : String)
  | mkdir (path : String)
  | create (path : String)
  | write (path : String) (data : List UInt8)
  deriving DecidableEq

/-- What reaches standard output.  Formatted lines are kept as the values substituted into
their format string. -/
inductive Out where
  /-- Plain `fmt.Println(s)`. -/
  | line (s : String)
  /-- Settings banner, lines 166-169. -/
  | settings (width height : Int) (from_dir out_dir : String) (rate : Int)
  /-- Notice of line 198. -/
  | dirCreated (out_dir : String)
  /-- Progress line, lines 122-123. -/
  | progress (remaining : Int) (base : String) (fromK outK : Nat)
  /-- Summary of line 208, without the elapsed time. -/
  | total (files fromM outM : Nat)
  deriving DecidableEq

structure World where
  stdout : List Out := []
  stderr : List String := []
  logOutput : LogWriter := .stderr
  fg : Color := .default
  fsops : List FsOp := []
  exit : Option Nat := none
  deriving DecidableEq

/-- The globals written by flag parsing (lines 55-60). -/
structure Config where
  out_width : Nat
  out_height : Nat
  compress_rate : Nat
  quota_limit : Nat
  from_dir : String
  out_dir : String
  deriving DecidableEq

/-- A decoded image as far as the program looks at it. -/
structure Img where
  width : Int
  height : Int
  deriving DecidableEq

/-- Go type `vips.ExportParams`, restricted to the field the encoder reads for JPEG quality. -/
structure ExportParams where
  quality : Nat
  deriving DecidableEq

inductive Kernel where
  | lanczos3
  deriving DecidableEq

/-- Arguments of one `image.ResizeWithVScale` call. -/
structure ResizeCall where
  hscale : ℚ
  vscale : ℚ
  kernel : Kernel
  deriving DecidableEq

/-- Everything outside the program: filesystem, codec, logger header, usage text.
An `Except.error` or `some` carries the text of the Go `error`. -/
structure Env where
  /-- Result of `os.Stat(p)` followed by `os.IsNotExist(err)`: the error when the path is absent. -/
  notExist : String → Option String
  /-- Result of `filepath.Glob(pattern)`. -/
  glob : String → Except String (List String)
  /-- Result of `os.Mkdir(p, 0755)`. -/
  mkdir : String → Option String
  /-- Result of `os.Stat(p)` and `fi.Size()`, an `int64`. -/
  fileSize : String → Except String Int
  /-- Result of `vips.NewImageFromFile`. -/
  decode : String → Except String Img
  /-- Result of `image.ResizeWithVScale`. -/
  resize : Img → ResizeCall → Except String Img
  /-- Result of `image.Export`. -/
  exportImg : Img → ExportParams → Except String (List UInt8)
  /-- Result of `os.Create`. -/
  create : String → Option String
  /-- Result of `writer.Write` on the buffered writer of the created file.  The results of the
  `Flush` and `Close` that follow are dropped by the source (lines 113-114) and have no
  counterpart here. -/
  write : String → List UInt8 → Option String
  /-- Result of `fmt.Sprintf(format, err)` for a format and one operand, the error. -/
  sprintf : String → String → String
  /-- Header the standard logger puts before a message (date and time by default). -/
  logHeader : String
  /-- Text of `flag.PrintDefaults`. -/
  usage : String

/-! ## `path/filepath` on Unix: `Clean`, `Join`, `Base` -/

namespace filepath

def Separator : Char := '/'

/-- The inner loop of the `..` case of `Clean`: `for out.w > dotdot && !sep(out[w]) { out.w-- }`. -/
def backtrackTo (out : List Char) (dotdot : Nat) : Nat → Nat
  | 0 => 0
  | w + 1 =>
    if dotdot < w + 1 ∧ out.getD (w + 1) Separator ≠ Separator then backtrackTo out dotdot w
    else w + 1

/-- Statement `out.w--` followed by the inner loop; the buffer is cut at the new `w`. -/
def backtrack (out : List Char) (dotdot : Nat) : List Char :=
  out.take (backtrackTo out dotdot (out.length - 1))

/-- The main loop of `Clean`: `path` is the unread input `path[r:]`, `out` the bytes written so
far, `dotdot` the index where `..` must stop.  One unit of fuel per iteration. -/
def cleanLoop (rooted : Bool) : Nat → List Char → List Char → Nat → List Char
  | 0, _, out, _ => out
  | _ + 1, [], out, _ => out
  | fuel + 1, c :: rest, out, dotdot =>
    if c = Separator then
      cleanLoop rooted fuel rest out dotdot
    else if c = '.' ∧ (rest = [] ∨ rest.head? = some Separator) then
      cleanLoop rooted fuel rest out dotdot
    else if c = '.' ∧ rest.head? = some '.' ∧
        (rest.tail = [] ∨ rest.tail.head? = some Separator) then
      if dotdot < out.length then
        cleanLoop rooted fuel rest.tail (backtrack out dotdot) dotdot
      else if rooted = false then
        let out1 := (if 0 < out.length then out ++ [Separator] else out) ++ ['.', '.']
        cleanLoop rooted fuel rest.tail out1 out1.length
      else
        cleanLoop rooted fuel rest.tail out dotdot
    else
      let out1 :=
        if (rooted = true ∧ out.length ≠ 1) ∨ (rooted = false ∧ out.length ≠ 0) then
          out ++ [Separator]
        else out
      cleanLoop rooted fuel ((c :: rest).dropWhile (fun x => x ≠ Separator))
        (out1 ++ (c :: rest).takeWhile (fun x => x ≠ Separator)) dotdot

/-- Go function `filepath.Clean` (no volume names on Unix). -/
def Clean (path : List Char) : List Char :=
  match path with
  | [] => ['.']
  | c :: rest =>
    let out :=
      if c = Separator then cleanLoop true path.length rest [Separator] 1
      else cleanLoop false path.length path [] 0
    if out = [] then ['.'] else out

/-- Go function `filepath.Join` of two elements: empty leading elements are skipped, the rest is joined
with the separator and cleaned. -/
def Join (a b : List Char) : List Char :=
  if a ≠ [] then Clean (a ++ Separator :: b)
  else if b ≠ [] then Clean b
  else []

/-- Go function `filepath.Base`: strip trailing separators, keep what follows the last separator. -/
def Base (path : List Char) : List Char :=
  if path = [] then ['.']
  else
    let p := (path.reverse.dropWhile (fun x => x = Separator)).reverse
    let e := (p.reverse.takeWhile (fun x => x ≠ Separator)).reverse
    if e = [] then [Separator] else e

/-- A directory entry name: not empty, no separator, neither `.` nor `..`. -/
def IsEntryName (n : List Char) : Prop :=
  n ≠ [] ∧ Separator ∉ n ∧ n ≠ ['.'] ∧ n ≠ ['.', '.']

instance (n : List Char) : Decidable (IsEntryName n) := by
  unfold IsEntryName; infer_instance

/-- What the loop of `Clean` maintains for a rooted path: the buffer starts with the
separator and `..` never backs into it. -/
def RootInv (rooted : Bool) (out : List Char) (dotdot : Nat) : Prop :=
  rooted = true → out.head? = some Separator ∧ 1 ≤ dotdot

/-- The separator the default case of `Clean` writes before a real path element. -/
def withSep (rooted : Bool) (out : List Char) : List Char :=
  if (rooted = true ∧ out.length ≠ 1) ∨ (rooted = false ∧ out.length ≠ 0) then
    out ++ [Separator]
  else out

/-- What `Clean` has written when it reaches an entry name: nothing, or text ending in the
separator. -/
def GoodDir (pre : List Char) : Prop := pre = [] ∨ ∃ q, pre = q ++ [Separator]

/-- Buffer and `dotdot` after a `..` element. -/
def dotdotState (rooted : Bool) (out : List Char) (dotdot : Nat) : List Char × Nat :=
  if dotdot < out.length then (backtrack out dotdot, dotdot)
  else if rooted = false then
    ((if 0 < out.length then out ++ [Separator] else out) ++ ['.', '.'],
      ((if 0 < out.length then out ++ [Separator] else out) ++ ['.', '.']).length)
  else (out, dotdot)

end filepath

/-- Go function `filepath.Join` on strings. -/
def pathJoin (a b : String) : String := ⟨filepath.Join a.data b.data⟩

/-- Go function `filepath.Base` on strings. -/
def pathBase (p : String) : String := ⟨filepath.Base p.data⟩

/-! ## `isFatal` (lines 73-78) -/

/-- The line the standard logger writes for a message: its header, the message, and a
newline unless the message already ends in one. -/
def logLine (env : Env) (text : String) : String :=
  if text.data.getLast? = some '\n' then env.logHeader ++ text
  else env.logHeader ++ text ++ "\n"

/-- Go function `log.Fatalf(format, err)`: format the message, hand it to the standard logger,
then `os.Exit(1)`. -/
def logFatalf (env : Env) (format err : String) (w : World) : World :=
  match w.logOutput with
  | .stderr =>
    { w with stderr := w.stderr ++ [logLine env (env.sprintf format err)], exit := some 1 }
  | .discard => { w with exit := some 1 }

/-- Source function `isFatal(message, err)`; `err = none` is Go's `nil`.  The message is part
of the format string, as in line 76. -/
def isFatal (env : Env) (message : String) (err : Option String) (w : World) : World :=
  match err with
  | none => w
  | some e => logFatalf env (attention ++ message ++ " %v") e { w with fg := .red }

/-! ## `main` up to the call of `doFromDirScan` (lines 140-205) -/

/-- Library call `vips.NewDefaultJPEGExportParams()`; the library's default quality is a parameter. -/
def NewDefaultJPEGExportParams (libQuality : Nat) : ExportParams := { quality := libQuality }

def println (s : String) (w : World) : World := { w with stdout := w.stdout ++ [Out.line s] }

def fsop (op : FsOp) (w : World) : World := { w with fsops := w.fsops ++ [op] }

/-- Statements `flag.PrintDefaults(); os.Exit(1)`. -/
def usageExit (env : Env) (w : World) : World :=
  { w with stderr := w.stderr ++ [env.usage], exit := some 1 }

/-- What `main` hands to `doFromDirScan`, with the global `total_files_count` it set on the
way (`mask_numb_s`, the width of the progress counter, only shapes the printed text). -/
structure Dispatch where
  files : List String
  ep : ExportParams
  total_files_count : Nat
  deriving DecidableEq

/-- Lines 145-169: logger redirection, the notice about defaults, the settings banner. -/
def mainBanner (cfg : Config) (nflag : Nat) : World :=
  let w : World := { logOutput := .discard }
  let w := if nflag = 0 then
      { println (attention ++ "No Flags. We use defaults.") { w with fg := .green } with
        fg := .default }
    else w
  { w with stdout := w.stdout ++
    [Out.settings (intOfUint cfg.out_width) (intOfUint cfg.out_height) cfg.from_dir cfg.out_dir
      (intOfUint cfg.compress_rate)] }

/-- Lines 183-205: find the input directory, glob it, make the output directory, dispatch. -/
def mainFiles (env : Env) (cfg : Config) (ep : ExportParams) (w : World) :
    World × Option Dispatch :=
  let w := isFatal env "Failed to find input dir:" (env.notExist cfg.from_dir)
    (fsop (.stat cfg.from_dir) w)
  if w.exit.isSome then (w, none)
  else
    let pattern := pathJoin cfg.from_dir ("*." ++ picture_extension)
    let w := fsop (.glob pattern) w
    match env.glob pattern with
    | .error e => (isFatal env ("Cant't count files from " ++ cfg.from_dir) (some e) w, none)
    | .ok dir_string =>
      let w := fsop (.stat cfg.out_dir) w
      let w := match env.notExist cfg.out_dir with
        | none => w
        | some _ =>
          let w := { w with fg := .green }
          let w := { w with stdout := w.stdout ++ [Out.dirCreated cfg.out_dir], fg := .default }
          isFatal env ("Failed to make directory " ++ cfg.out_dir) (env.mkdir cfg.out_dir)
            (fsop (.mkdir cfg.out_dir) w)
      if w.exit.isSome then (w, none)
      else (w, some { files := dir_string, ep := ep, total_files_count := dir_string.length })

/-- Lines 140-205.  `cfg` and `nflag` are the result of `flag.Parse()`.  Returns the world at
the point where `main` exits or calls `doFromDirScan`, and in the latter case the call. -/
def main (libQuality : Nat) (env : Env) (cfg : Config) (nflag : Nat) : World × Option Dispatch :=
  let ep := NewDefaultJPEGExportParams libQuality
  let w := mainBanner cfg nflag
  if cfg.compress_rate ≤ 9 ∨ cfg.compress_rate ≥ 101 then
    (usageExit env (println (attention ++ "Compress rate must be in the range of 10 to 100") w),
      none)
  else if cfg.quota_limit ≤ 0 then
    (usageExit env (println (attention ++ "Quota limit must be not zero.") w), none)
  else mainFiles env cfg ep w

/-! ## The goroutines of `doFromDirScan` and `doResizeOneImage` (lines 89-138) -/

/-- Program counter of one `doResizeOneImage` goroutine. -/
inductive PC where
  /-- Line 90, the send on `quotaCh`. -/
  | acquire
  /-- Lines 93-94. -/
  | decode
  /-- Line 95, the call of `sizeOfFile` (lines 81-86). -/
  | stat
  /-- Lines 97-99. -/
  | resize
  /-- Lines 101-102. -/
  | exportBytes
  /-- Lines 104-107. -/
  | create
  /-- Lines 109-116: `writer.Write`, then `Flush` and `Close` with their results dropped. -/
  | write
  /-- Line 118, read of `total_files_processed` -/
  | loadCount
  /-- Line 118, write of `total_files_processed` -/
  | storeCount
  /-- Line 119, read of `total_from_files_size` -/
  | loadFrom
  /-- Line 119, write of `total_from_files_size` -/
  | storeFrom
  /-- Line 120, read of `total_out_files_size` -/
  | loadOut
  /-- Line 120, write of `total_out_files_size` -/
  | storeOut
  /-- Progress line, lines 122-123. -/
  | print
  /-- Line 124, the receive from `quotaCh`. -/
  | release
  /-- The deferred `wg.Done()`. -/
  | done
  /-- The goroutine has returned. -/
  | finished
  deriving DecidableEq

/-- Locals of one goroutine. `reg` holds the value read by the pending `+=`. -/
structure Task where
  fname : String
  pc : PC := .acquire
  image : Img := ⟨0, 0⟩
  from_file_size : Nat := 0
  image_bytes : List UInt8 := []
  out_file_size : Nat := 0
  reg : Nat := 0
  deriving DecidableEq

/-- State of a run of `doFromDirScan`: goroutines started so far (in job order), jobs the
`for` loop has not reached yet, tokens in `quotaCh`, the `WaitGroup` counter, the three global
counters (lines 62-64), whether `wg.Wait()` has returned, and the world. -/
structure State where
  tasks : List Task := []
  pending : List String
  quotaCh : Nat := 0
  wg : Nat := 0
  total_files_processed : Nat := 0
  total_from_files_size : Nat := 0
  total_out_files_size : Nat := 0
  returned : Bool := false
  world : World
  deriving DecidableEq

/-- The scale factor of line 97. -/
def scaleOf (cfg : Config) (image : Img) : ℚ := (cfg.out_width : ℚ) / (image.width : ℚ)

/-- The call of line 98. -/
def resizeCall (cfg : Config) (image : Img) : ResizeCall :=
  let scale := scaleOf cfg image
  { hscale := scale, vscale := scale, kernel := .lanczos3 }

/-- The path of line 106. -/
def outPath (cfg : Config) (fname : String) : String :=
  let base_fname := pathBase fname
  pathJoin cfg.out_dir base_fname

def State.setTask (s : State) (i : Nat) (t : Task) : State := { s with tasks := s.tasks.set i t }

def State.fatal (s : State) (env : Env) (message err : String) : State :=
  { s with world := isFatal env message (some err) s.world }

/-- One statement of goroutine `i`, whose locals are `t`.  `none`: the goroutine is blocked
or has returned. -/
def doResizeOneImage (env : Env) (cfg : Config) (total_files_count : Nat) (ep : ExportParams)
    (s : State) (i : Nat) (t : Task) : Option State :=
  match t.pc with
  | .acquire =>
    if s.quotaCh < cfg.quota_limit then
      some { s with quotaCh := s.quotaCh + 1, tasks := s.tasks.set i { t with pc := .decode } }
    else none
  | .decode =>
    match env.decode t.fname with
    | .error e =>
      some (s.fatal env ("Failed to open image: " ++ t.fname ++ " from " ++ cfg.from_dir) e)
    | .ok image => some (s.setTask i { t with image := image, pc := .stat })
  | .stat =>
    let s := { s with world := fsop (.stat t.fname) s.world }
    match env.fileSize t.fname with
    | .error e => some (s.fatal env ("Failed to get filesize of " ++ t.fname) e)
    | .ok size => some (s.setTask i { t with from_file_size := uintOfInt size, pc := .resize })
  | .resize =>
    match env.resize t.image (resizeCall cfg t.image) with
    | .error e => some (s.fatal env ("Failed to resize image: " ++ t.fname) e)
    | .ok image => some (s.setTask i { t with image := image, pc := .exportBytes })
  | .exportBytes =>
    match env.exportImg t.image ep with
    | .error e => some (s.fatal env ("Failed to export image: " ++ t.fname) e)
    | .ok image_bytes => some (s.setTask i { t with image_bytes := image_bytes, pc := .create })
  | .create =>
    let s := { s with world := fsop (.create (outPath cfg t.fname)) s.world }
    match env.create (outPath cfg t.fname) with
    | some e => some (s.fatal env ("Failed to create file:" ++ t.fname ++ " in " ++ cfg.out_dir) e)
    | none => some (s.setTask i { t with pc := .write })
  | .write =>
    let s := { s with world := fsop (.write (outPath cfg t.fname) t.image_bytes) s.world }
    match env.write (outPath cfg t.fname) t.image_bytes with
    | some e => some (s.fatal env ("Failed to write image:" ++ t.fname ++ " to " ++ cfg.out_dir) e)
    | none =>
      some (s.setTask i { t with out_file_size := t.image_bytes.length % uintMod, pc := .loadCount })
  | .loadCount => some (s.setTask i { t with reg := s.total_files_processed, pc := .storeCount })
  | .storeCount =>
    some { s with total_files_processed := (t.reg + 1) % uintMod,
                  tasks := s.tasks.set i { t with pc := .loadFrom } }
  | .loadFrom => some (s.setTask i { t with reg := s.total_from_files_size, pc := .storeFrom })
  | .storeFrom =>
    some { s with total_from_files_size := (t.reg + t.from_file_size) % uintMod,
                  tasks := s.tasks.set i { t with pc := .loadOut } }
  | .loadOut => some (s.setTask i { t with reg := s.total_out_files_size, pc := .storeOut })
  | .storeOut =>
    some { s with total_out_files_size := (t.reg + t.out_file_size) % uintMod,
                  tasks := s.tasks.set i { t with pc := .print } }
  | .print =>
    let remaining :=
      intOfUint (total_files_count % uintMod + (uintMod - s.total_files_processed % uintMod) + 1)
    let w := { s.world with stdout := s.world.stdout ++
      [Out.progress remaining (pathBase t.fname) (t.from_file_size / 1024) (t.out_file_size / 1024)] }
    some { s with world := w, tasks := s.tasks.set i { t with pc := .release } }
  | .release =>
    if 0 < s.quotaCh then
      some { s with quotaCh := s.quotaCh - 1, tasks := s.tasks.set i { t with pc := .done } }
    else none
  | .done => some { s with wg := s.wg - 1, tasks := s.tasks.set i { t with pc := .finished } }
  | .finished => none

/-- What the scheduler may pick next. -/
inductive Event where
  /-- One iteration of the `for` loop of `doFromDirScan`: `wg.Add(1)` and the `go` statement -/
  | spawn
  /-- Goroutine `i` executes its next statement. -/
  | task (i : Nat)
  /-- The call `wg.Wait()` returns. -/
  | wait
  deriving DecidableEq

/-- The state in which `doFromDirScan(files, ep)` starts, in world `w` (lines 129-130).  For a
capacity that does not fit an `int`, `make` panics and the process ends with status 2 before
any goroutine is started (the report of the runtime on standard error is left out). -/
def doFromDirScan (cfg : Config) (files : List String) (w : World) : State :=
  { pending := files,
    world := if 2 ^ 63 ≤ cfg.quota_limit % uintMod then { w with exit := some 2 } else w }

/-- One scheduling step.  Nothing runs after `os.Exit` or after `doFromDirScan` has returned. -/
def step (env : Env) (cfg : Config) (total_files_count : Nat) (ep : ExportParams)
    (s : State) (e : Event) : Option State :=
  if s.world.exit.isSome ∨ s.returned = true then none
  else
    match e with
    | .spawn =>
      match s.pending with
      | [] => none
      | file :: rest =>
        some { s with wg := s.wg + 1, tasks := s.tasks ++ [{ fname := file }], pending := rest }
    | .task i =>
      match s.tasks[i]? with
      | none => none
      | some t => doResizeOneImage env cfg total_files_count ep s i t
    | .wait => if s.pending = [] ∧ s.wg = 0 then some { s with returned := true } else none

/-- Run a schedule; `none` when it asks for a step that is not enabled. -/
def run (env : Env) (cfg : Config) (total_files_count : Nat) (ep : ExportParams) :
    State → List Event → Option State
  | s, [] => some s
  | s, e :: es =>
    match step env cfg total_files_count ep s e with
    | none => none
    | some s1 => run env cfg total_files_count ep s1 es

/-- Lines 207-209: the summary printed after `doFromDirScan` has returned. -/
def mainReport (s : State) : World :=
  println author_s { s.world with stdout := s.world.stdout ++
    [Out.total s.total_files_processed (s.total_from_files_size / 1024 / 1024)
      (s.total_out_files_size / 1024 / 1024)] }

/-! ## Concrete inputs used to exercise the model -/

/-- An environment in which every call succeeds: two images in the input directory, the
encoder returns one byte holding the quality it was asked for. -/
def envOk : Env where
  notExist := fun _ => none
  glob := fun _ => .ok ["in/a.jpg", "in/b.jpg"]
  mkdir := fun _ => none
  fileSize := fun _ => .ok 5000
  decode := fun _ => .ok ⟨800, 600⟩
  resize := fun image call =>
    .ok ⟨Rat.floor (image.width * call.hscale), Rat.floor (image.height * call.vscale)⟩
  exportImg := fun _ ep => .ok [UInt8.ofNat ep.quality]
  create := fun _ => none
  write := fun _ _ => none
  sprintf := fun format err => format.replace "%v" err
  logHeader := "2024/01/01 00:00:00 "
  usage := "usage"

/-- As `envOk`, but the input directory does not exist. -/
def envNoInput : Env := { envOk with notExist := fun _ => some "no such file or directory" }

/-- As `envOk`, but the pattern made from the input directory `in[` is malformed. -/
def envBadGlob : Env :=
  { envOk with
    glob := fun pattern =>
      if pattern = "in[/*.jpg" then .error "syntax error in pattern"
      else .ok ["in/a.jpg", "in/b.jpg"] }

/-- As `envOk`, but the output directory is absent and cannot be made. -/
def envNoMkdir : Env :=
  { envOk with
    notExist := fun p => if p = "out" then some "no such file or directory" else none
    mkdir := fun _ => some "permission denied" }

/-- As `envOk`, but `b.jpg` cannot be decoded. -/
def envBadB : Env :=
  { envOk with decode := fun f => if f = "in/b.jpg" then .error "bad" else .ok ⟨800, 600⟩ }

def cfgOk : Config :=
  { out_width := 1920, out_height := 1920, compress_rate := 70, quota_limit := 2,
    from_dir := "in", out_dir := "out" }

/-- The whole program under a schedule: `main` up to the dispatch, then the goroutines. -/
def program (libQuality : Nat) (env : Env) (cfg : Config) (nflag : Nat) (es : List Event) :
    Option State :=
  match main libQuality env cfg nflag with
  | (w, some d) => run env cfg d.total_files_count d.ep (doFromDirScan cfg d.files w) es
  | (_, none) => none

/-- Every statement of goroutine `i` from the channel send to the deferred `wg.Done()`. -/
def wholeJob (i : Nat) : List Event := List.replicate 16 (Event.task i)

/-! ## Observations on the goroutine states -/

/-- The goroutine has sent on `quotaCh` and not yet received from it: it is somewhere between
line 93 and line 124. -/
def PC.holdsSlot : PC → Bool
  | .acquire => false
  | .done => false
  | .finished => false
  | _ => true

/-- The goroutine has executed the store of line 118. -/
def PC.pastCount : PC → Bool
  | .loadFrom => true
  | .storeFrom => true
  | .loadOut => true
  | .storeOut => true
  | .print => true
  | .release => true
  | .done => true
  | .finished => true
  | _ => false

/-- The statement following a statement that did not fail. -/
def PC.next : PC → PC
  | .acquire => .decode
  | .decode => .stat
  | .stat => .resize
  | .resize => .exportBytes
  | .exportBytes => .create
  | .create => .write
  | .write => .loadCount
  | .loadCount => .storeCount
  | .storeCount => .loadFrom
  | .loadFrom => .storeFrom
  | .storeFrom => .loadOut
  | .loadOut => .storeOut
  | .storeOut => .print
  | .print => .release
  | .release => .done
  | .done => .finished
  | .finished => .finished

/-- Number of goroutines executing the decode/resize/encode/write sequence. -/
def executing (s : State) : Nat := s.tasks.countP (fun t => t.pc.holdsSlot)

/-- Number of goroutines that have written `total_files_processed`. -/
def counted (s : State) : Nat := s.tasks.countP (fun t => t.pc.pastCount)

/-- The goroutine has executed the write of line 110. -/
def PC.pastWrite : PC → Bool
  | .loadCount => true
  | .storeCount => true
  | .loadFrom => true
  | .storeFrom => true
  | .loadOut => true
  | .storeOut => true
  | .print => true
  | .release => true
  | .done => true
  | .finished => true
  | _ => false

/-- The goroutine has executed the export of line 101. -/
def PC.pastExport : PC → Bool
  | .create => true
  | .write => true
  | pc => pc.pastWrite

/-- Path and bytes of every write call made so far, in the order of the calls. -/
def writes (w : World) : List (String × List UInt8) :=
  w.fsops.filterMap (fun op =>
    match op with
    | .write path data => some (path, data)
    | _ => none)

/-- What a goroutine has written: nothing before line 110, then its output path and its
encoded bytes. -/
def written (cfg : Config) (t : Task) : Option (String × List UInt8) :=
  if t.pc.pastWrite = true then some (outPath cfg t.fname, t.image_bytes) else none

/-! ## Invariants of the goroutine machine -/

/-- Bookkeeping of the output files: the goroutines started are the jobs the loop has passed;
the `WaitGroup` counts the goroutines that have not returned and `wg.Wait()` returns only at
zero with every job started; in a live process the write calls are, up to order, one per
goroutine past line 110, with its output path and bytes; and the bytes of a goroutine past
line 101 are what `image.Export` returned for its image. -/
def WriteInv (env : Env) (cfg : Config) (ep : ExportParams) (files : List String)
    (w0 : World) (s : State) : Prop :=
  s.tasks.map Task.fname ++ s.pending = files ∧
  s.wg = s.tasks.countP (fun t => decide (t.pc ≠ .finished)) ∧
  (s.returned = true → s.wg = 0 ∧ s.pending = []) ∧
  (s.world.exit = none →
    (writes s.world).Perm (writes w0 ++ s.tasks.filterMap (written cfg))) ∧
  (∀ t ∈ s.tasks, t.pc.pastExport = true → env.exportImg t.image ep = .ok t.image_bytes)


/-- The channel holds one token per goroutine at work, and never more than its capacity. -/
def SlotInv (cfg : Config) (s : State) : Prop :=
  s.quotaCh = executing s ∧ s.quotaCh ≤ cfg.quota_limit

/-- Bookkeeping kept by every step: the goroutines started are, in order, the jobs the loop has
passed; the processed counter never exceeds the number of goroutines that have written it, nor
does a value read for a pending write; the `WaitGroup` counts the goroutines that have not
returned; and `wg.Wait()` has returned only with a zero counter. -/
def CountInv (files : List String) (s : State) : Prop :=
  s.tasks.map Task.fname ++ s.pending = files ∧
  s.total_files_processed ≤ counted s ∧
  (∀ t ∈ s.tasks, t.pc = .storeCount → t.reg ≤ counted s) ∧
  s.wg = s.tasks.countP (fun t => decide (t.pc ≠ .finished)) ∧
  (s.returned = true → s.wg = 0)

/-! ## Predicates on the outcome of `main` -/

/-- The run ended at the compression-rate check: the range message is the last thing printed,
the exit status is 1, no filesystem call was made and nothing was dispatched. -/
def rateRejected (r : World × Option Dispatch) : Prop :=
  r.1.exit = some 1 ∧
  r.1.stdout.getLast? =
    some (Out.line (attention ++ "Compress rate must be in the range of 10 to 100")) ∧
  r.1.fsops = [] ∧ r.2 = none

/-- The run ended at the quota check. -/
def quotaRejected (r : World × Option Dispatch) : Prop :=
  r.1.exit = some 1 ∧
  r.1.stdout.getLast? = some (Out.line (attention ++ "Quota limit must be not zero.")) ∧
  r.1.fsops = [] ∧ r.2 = none

/-- The process exited with status 1 and `doFromDirScan` was not called. -/
def exitsBeforeDispatch (r : World × Option Dispatch) : Prop :=
  r.1.exit = some 1 ∧ r.2 = none

/-! # Theorems -/

/-! ## Lemmas on `isFatal` and `main` -/

theorem isFatal_fsops (env : Env) (m : String) (err : Option String) (w : World) :
    (isFatal env m err w).fsops = w.fsops := by
  cases err with
  | none => rfl
  | some e => unfold isFatal logFatalf; cases w.logOutput <;> rfl

theorem isFatal_exit (env : Env) (m : String) (err : Option String) (w : World) :
    (isFatal env m err w).exit = if err.isSome then some 1 else w.exit := by
  cases err with
  | none => rfl
  | some e => unfold isFatal logFatalf; cases w.logOutput <;> rfl

theorem rate_msg_ne_quota_msg :
    attention ++ "Quota limit must be not zero." ≠
      attention ++ "Compress rate must be in the range of 10 to 100" := by decide

theorem mainBanner_fsops (cfg : Config) (nflag : Nat) : (mainBanner cfg nflag).fsops = [] := by
  unfold mainBanner; by_cases hn : nflag = 0 <;> simp [hn, println]

theorem mainBanner_logOutput (cfg : Config) (nflag : Nat) :
    (mainBanner cfg nflag).logOutput = .discard := by
  unfold mainBanner; by_cases hn : nflag = 0 <;> simp [hn, println]

/-- Outcome of `main` when the compression rate is outside 10..100. -/
theorem main_rate_out (libQuality : Nat) (env : Env) (cfg : Config) (nflag : Nat)
    (h : cfg.compress_rate ≤ 9 ∨ cfg.compress_rate ≥ 101) :
    rateRejected (main libQuality env cfg nflag) := by
  unfold rateRejected main
  simp only [h, if_true]
  simp [usageExit, println, mainBanner_fsops]

/-- Outcome of `main` when the rate is accepted and the quota is zero. -/
theorem main_quota_zero (libQuality : Nat) (env : Env) (cfg : Config) (nflag : Nat)
    (h : ¬ (cfg.compress_rate ≤ 9 ∨ cfg.compress_rate ≥ 101)) (hq : cfg.quota_limit ≤ 0) :
    quotaRejected (main libQuality env cfg nflag) := by
  unfold quotaRejected main
  simp only [h, hq, if_true, if_false]
  simp [usageExit, println, mainBanner_fsops]

theorem fsop_fsops (op : FsOp) (w : World) : (fsop op w).fsops = w.fsops ++ [op] := rfl

theorem fsop_exit (op : FsOp) (w : World) : (fsop op w).exit = w.exit := rfl

/-- The file stage always starts with a `stat`, and dispatches only from a live process, with
the export parameters it was given. -/
theorem mainFiles_spec (env : Env) (cfg : Config) (ep : ExportParams) (w : World) :
    (mainFiles env cfg ep w).1.fsops ≠ [] ∧
    (∀ d, (mainFiles env cfg ep w).2 = some d →
      (mainFiles env cfg ep w).1.exit = none ∧ d.ep = ep) := by
  unfold mainFiles
  dsimp only
  by_cases h1 : (isFatal env "Failed to find input dir:" (env.notExist cfg.from_dir)
      (fsop (.stat cfg.from_dir) w)).exit.isSome = true
  · rw [if_pos h1]
    simp [isFatal_fsops, fsop_fsops]
  · rw [if_neg h1]
    cases hg : env.glob (pathJoin cfg.from_dir ("*." ++ picture_extension)) with
    | error e => simp [isFatal_fsops, fsop_fsops]
    | ok files =>
      dsimp only
      split
      · refine ⟨?_, by simp⟩
        cases env.notExist cfg.out_dir <;> simp [isFatal_fsops, fsop_fsops]
      · rename_i h2
        refine ⟨?_, ?_⟩
        · cases env.notExist cfg.out_dir <;> simp [isFatal_fsops, fsop_fsops]
        · intro d hd
          simp only [Prod.mk.injEq, Option.some.injEq] at hd
          refine ⟨?_, by rw [← hd]⟩
          simpa using h2

theorem mainBanner_exit (cfg : Config) (nflag : Nat) : (mainBanner cfg nflag).exit = none := by
  unfold mainBanner; by_cases hn : nflag = 0 <;> simp [hn, println]

/-- With the input directory present, the glob succeeding and the output directory present or
creatable, the file stage dispatches. -/
theorem mainFiles_dispatches (env : Env) (cfg : Config) (ep : ExportParams) (w : World)
    (hw : w.exit = none) (hin : env.notExist cfg.from_dir = none) (files : List String)
    (hg : env.glob (pathJoin cfg.from_dir ("*." ++ picture_extension)) = .ok files)
    (hout : env.notExist cfg.out_dir = none ∨ env.mkdir cfg.out_dir = none) :
    (mainFiles env cfg ep w).2 =
      some { files := files, ep := ep, total_files_count := files.length } := by
  unfold mainFiles
  dsimp only
  rw [hin, hg]
  have e1 : (isFatal env "Failed to find input dir:" none (fsop (.stat cfg.from_dir) w)).exit
      = none := by simp [isFatal_exit, fsop_exit, hw]
  simp only [e1, Option.isSome_none, Bool.false_eq_true, if_false]
  cases hn : env.notExist cfg.out_dir with
  | none => simp [fsop_exit, e1]
  | some e0 =>
    have hm : env.mkdir cfg.out_dir = none := by
      rcases hout with h | h
      · rw [hn] at h; cases h
      · exact h
    simp [hm, isFatal_exit, fsop_exit, e1, hw]

/-! ## Claims about `main` and `isFatal` -/

/-- C3: for every compression rate `c`, `main` stops at the rate check (range message printed
last, exit status 1, no filesystem call made, nothing dispatched) exactly when `c < 10` or
`c > 100`; every `c` in `10..100` gets past the check. -/
theorem rate_check_rejects_iff (libQuality : Nat) (env : Env) (cfg : Config) (nflag : Nat) :
    rateRejected (main libQuality env cfg nflag) ↔
      (cfg.compress_rate < 10 ∨ cfg.compress_rate > 100) := by
  constructor
  · intro hr
    by_contra hc
    have h : ¬ (cfg.compress_rate ≤ 9 ∨ cfg.compress_rate ≥ 101) := by omega
    by_cases hq : cfg.quota_limit ≤ 0
    · have hz := main_quota_zero libQuality env cfg nflag h hq
      have e1 := hr.2.1
      rw [hz.2.1] at e1
      simp only [Option.some.injEq, Out.line.injEq] at e1
      exact rate_msg_ne_quota_msg e1
    · have hf : (main libQuality env cfg nflag).1.fsops ≠ [] := by
        unfold main
        simp only [h, hq, if_false]
        exact (mainFiles_spec env cfg _ _).1
      exact hf hr.2.2.1
  · intro hc
    exact main_rate_out libQuality env cfg nflag (by omega)

/-- C9, as amended: a zero quota always ends `main` with status 1 before any dispatch; once the
rate check is passed the quota check stops the run exactly when `q = 0`; when moreover the
input directory exists, the glob succeeds and the output directory exists or can be made,
`main` exits with status 1 before dispatch exactly when `q = 0`; and whenever `doFromDirScan`
is called the capacity `quota_limit` of `quotaCh` is at least 1. -/
theorem quota_check_rejects_iff (libQuality : Nat) (env : Env) (cfg : Config) (nflag : Nat) :
    (cfg.quota_limit = 0 → exitsBeforeDispatch (main libQuality env cfg nflag)) ∧
    (10 ≤ cfg.compress_rate ∧ cfg.compress_rate ≤ 100 →
      (quotaRejected (main libQuality env cfg nflag) ↔ cfg.quota_limit = 0)) ∧
    (10 ≤ cfg.compress_rate ∧ cfg.compress_rate ≤ 100 →
      env.notExist cfg.from_dir = none →
      (∃ files, env.glob (pathJoin cfg.from_dir ("*." ++ picture_extension)) = .ok files) →
      (env.notExist cfg.out_dir = none ∨ env.mkdir cfg.out_dir = none) →
      (exitsBeforeDispatch (main libQuality env cfg nflag) ↔ cfg.quota_limit = 0)) ∧
    (∀ d, (main libQuality env cfg nflag).2 = some d → 1 ≤ cfg.quota_limit) := by
  have key : ∀ d, (main libQuality env cfg nflag).2 = some d → 1 ≤ cfg.quota_limit := by
    intro d hd
    by_contra hq
    by_cases h : cfg.compress_rate ≤ 9 ∨ cfg.compress_rate ≥ 101
    · have := (main_rate_out libQuality env cfg nflag h).2.2.2
      rw [this] at hd; cases hd
    · have := (main_quota_zero libQuality env cfg nflag h (by omega)).2.2.2
      rw [this] at hd; cases hd
  have zero : cfg.quota_limit = 0 → exitsBeforeDispatch (main libQuality env cfg nflag) := by
    intro hq
    by_cases h : cfg.compress_rate ≤ 9 ∨ cfg.compress_rate ≥ 101
    · have := main_rate_out libQuality env cfg nflag h
      exact ⟨this.1, this.2.2.2⟩
    · have := main_quota_zero libQuality env cfg nflag h (by omega)
      exact ⟨this.1, this.2.2.2⟩
  refine ⟨zero, ?_, ?_, key⟩
  · intro hc
    have h : ¬ (cfg.compress_rate ≤ 9 ∨ cfg.compress_rate ≥ 101) := by omega
    constructor
    · intro hr
      by_contra hq
      have hf : (main libQuality env cfg nflag).1.fsops ≠ [] := by
        unfold main
        have hq2 : ¬ cfg.quota_limit ≤ 0 := by omega
        simp only [h, hq2, if_false]
        exact (mainFiles_spec env cfg _ _).1
      exact hf hr.2.2.1
    · intro hq
      exact main_quota_zero libQuality env cfg nflag h (by omega)
  · intro hc hin hg hout
    have h : ¬ (cfg.compress_rate ≤ 9 ∨ cfg.compress_rate ≥ 101) := by omega
    refine ⟨?_, zero⟩
    intro hx
    by_contra hq
    obtain ⟨files, hg⟩ := hg
    have hq2 : ¬ cfg.quota_limit ≤ 0 := by omega
    have hd : (main libQuality env cfg nflag).2 =
        some { files := files, ep := NewDefaultJPEGExportParams libQuality,
               total_files_count := files.length } := by
      unfold main
      simp only [h, hq2, if_false]
      exact mainFiles_dispatches env cfg _ _ (mainBanner_exit cfg nflag) hin files hg hout
    rw [hx.2] at hd
    cases hd

/-- C9, counterexample to the claim as stated: with quota 4, `main` still exits with status 1
before any dispatch when the rate is 5, when the input directory is missing, when the input
directory `in[` makes a malformed pattern, or when the output directory cannot be made; so an exit with status 1 before dispatch
does not imply `q = 0`. -/
theorem exit_before_dispatch_with_positive_quota :
    ¬ (exitsBeforeDispatch (main 80 envOk { cfgOk with compress_rate := 5, quota_limit := 4 } 1)
        ↔ ({ cfgOk with compress_rate := 5, quota_limit := 4 } : Config).quota_limit = 0) ∧
    ¬ (exitsBeforeDispatch (main 80 envNoInput { cfgOk with quota_limit := 4 } 1)
        ↔ ({ cfgOk with quota_limit := 4 } : Config).quota_limit = 0) ∧
    ¬ (exitsBeforeDispatch
          (main 80 envBadGlob { cfgOk with from_dir := "in[", quota_limit := 4 } 1)
        ↔ ({ cfgOk with from_dir := "in[", quota_limit := 4 } : Config).quota_limit = 0) ∧
    ¬ (exitsBeforeDispatch (main 80 envNoMkdir { cfgOk with quota_limit := 4 } 1)
        ↔ ({ cfgOk with quota_limit := 4 } : Config).quota_limit = 0) := by
  have h1 : exitsBeforeDispatch
      (main 80 envOk { cfgOk with compress_rate := 5, quota_limit := 4 } 1) :=
    ⟨by decide, by decide⟩
  have h2 : exitsBeforeDispatch (main 80 envNoInput { cfgOk with quota_limit := 4 } 1) :=
    ⟨by decide, by decide⟩
  have h3 : exitsBeforeDispatch
      (main 80 envBadGlob { cfgOk with from_dir := "in[", quota_limit := 4 } 1) :=
    ⟨by decide, by decide⟩
  have h4 : exitsBeforeDispatch (main 80 envNoMkdir { cfgOk with quota_limit := 4 } 1) :=
    ⟨by decide, by decide⟩
  exact ⟨fun h => absurd (h.mp h1) (by decide), fun h => absurd (h.mp h2) (by decide),
    fun h => absurd (h.mp h3) (by decide), fun h => absurd (h.mp h4) (by decide)⟩

/-- Witness for C9 at `envOk`: quota 0 is rejected at the quota check, quota 2 is neither
rejected there nor stopped before dispatch. -/
theorem quota_check_rejects_iff_witness :
    quotaRejected (main 80 envOk { cfgOk with quota_limit := 0 } 1) ∧
    ¬ quotaRejected (main 80 envOk cfgOk 1) ∧
    ¬ exitsBeforeDispatch (main 80 envOk cfgOk 1) :=
  ⟨((quota_check_rejects_iff 80 envOk { cfgOk with quota_limit := 0 } 1).2.1
      (by decide)).mpr rfl,
   fun h => absurd (((quota_check_rejects_iff 80 envOk cfgOk 1).2.1 (by decide)).mp h)
      (by decide),
   fun h => absurd (((quota_check_rejects_iff 80 envOk cfgOk 1).2.2.1 (by decide) rfl
      ⟨_, rfl⟩ (Or.inl rfl)).mp h) (by decide)⟩


/-- C4 (code defect): the export parameters `main` hands to `doFromDirScan`, and from there to
every `image.Export`, carry the library default quality whatever the compression rate: for
each default there is an accepted rate that differs from it, and at `-c=70` with default 80 the
bytes written for the first job are those the encoder produces for quality 80. -/
theorem export_quality_ignores_rate :
    (∀ (libQuality : Nat) (env : Env) (cfg : Config) (nflag : Nat),
      (main libQuality env cfg nflag).2.map (fun d => d.ep.quality) =
        (main libQuality env cfg nflag).2.map (fun _ => libQuality)) ∧
    (∀ libQuality : Nat, ∃ c, 10 ≤ c ∧ c ≤ 100 ∧
      (main libQuality envOk { cfgOk with compress_rate := c } 1).2.map (fun d => d.ep.quality)
        = some libQuality ∧ libQuality ≠ c) ∧
    cfgOk.compress_rate = 70 ∧
    (program 80 envOk cfgOk 1 (.spawn :: List.replicate 7 (.task 0))).map
      (fun s => s.world.fsops.getLast?) = some (some (.write "out/a.jpg" [80])) := by
  have gen : ∀ (libQuality : Nat) (env : Env) (cfg : Config) (nflag : Nat),
      (main libQuality env cfg nflag).2.map (fun d => d.ep.quality) =
        (main libQuality env cfg nflag).2.map (fun _ => libQuality) := by
    intro libQuality env cfg nflag
    cases hd : (main libQuality env cfg nflag).2 with
    | none => rfl
    | some d =>
      have hq : 1 ≤ cfg.quota_limit := by
        by_contra hq
        by_cases h : cfg.compress_rate ≤ 9 ∨ cfg.compress_rate ≥ 101
        · have := (main_rate_out libQuality env cfg nflag h).2.2.2
          rw [this] at hd; cases hd
        · have := (main_quota_zero libQuality env cfg nflag h (by omega)).2.2.2
          rw [this] at hd; cases hd
      have hc : ¬ (cfg.compress_rate ≤ 9 ∨ cfg.compress_rate ≥ 101) := by
        intro h
        have := (main_rate_out libQuality env cfg nflag h).2.2.2
        rw [this] at hd; cases hd
      have hq2 : ¬ cfg.quota_limit ≤ 0 := by omega
      have hm : main libQuality env cfg nflag =
          mainFiles env cfg (NewDefaultJPEGExportParams libQuality) (mainBanner cfg nflag) := by
        unfold main
        simp only [hc, hq2, if_false]
      rw [hm] at hd
      have := ((mainFiles_spec env cfg _ _).2 d hd).2
      simp [this, NewDefaultJPEGExportParams]
  refine ⟨gen, ?_, rfl, by decide⟩
  intro libQuality
  have disp : ∀ c, 10 ≤ c → c ≤ 100 →
      (main libQuality envOk { cfgOk with compress_rate := c } 1).2.map (fun d => d.ep.quality)
        = some libQuality := by
    intro c h1 h2
    have hc : ¬ (c ≤ 9 ∨ c ≥ 101) := by omega
    rw [gen]
    unfold main
    simp only [hc, if_false]
    have hq2 : ¬ cfgOk.quota_limit ≤ 0 := by decide
    simp only [hq2, if_false]
    rw [mainFiles_dispatches envOk _ _ _ (mainBanner_exit _ _) rfl _ rfl (Or.inl rfl)]
    rfl
  by_cases h : libQuality = 10
  · exact ⟨11, by omega, by omega, disp 11 (by omega) (by omega), by omega⟩
  · exact ⟨10, by omega, by omega, disp 10 (by omega) (by omega), h⟩

/-- C8 (code defect): `main` points the standard logger at `io.Discard` before anything can
fail, so a fatal report never reaches the terminal: with a discarding logger `isFatal` on an
error only turns the colour red and exits with status 1, leaving standard output and standard
error as they were; with the logger on standard error the report would be the header followed
by what `fmt.Sprintf` makes of `ATTENTION: `, the message and ` %v` with the error.  With a missing input directory, `main` ends with
status 1 having printed the settings banner and nothing else, and so does a run in which a
decode fails. -/
theorem fatal_report_is_discarded :
    (∀ (cfg : Config) (nflag : Nat), (mainBanner cfg nflag).logOutput = .discard) ∧
    (∀ (env : Env) (message e : String) (w : World),
      isFatal env message (some e) { w with logOutput := .discard } =
        { w with logOutput := .discard, fg := .red, exit := some 1 }) ∧
    (∀ (env : Env) (message e : String) (w : World),
      isFatal env message (some e) { w with logOutput := .stderr } =
        { w with logOutput := .stderr, fg := .red, exit := some 1,
                 stderr := w.stderr ++
                   [logLine env (env.sprintf (attention ++ message ++ " %v") e)] }) ∧
    (∀ (env : Env) (message : String) (w : World), isFatal env message none w = w) ∧
    main 80 envNoInput cfgOk 1 =
      ({ stdout := [Out.settings 1920 1920 "in" "out" 70], stderr := [], logOutput := .discard,
         fg := .red, fsops := [.stat "in"], exit := some 1 }, none) ∧
    (program 80 envBadB cfgOk 1 [.spawn, .spawn, .task 1, .task 1]).map
      (fun s => (s.world.exit, s.world.stderr, s.world.stdout)) =
      some (some 1, [], [Out.settings 1920 1920 "in" "out" 70]) := by
  refine ⟨mainBanner_logOutput, ?_, ?_, ?_, by decide, by decide⟩
  · intro env message e w; rfl
  · intro env message e w; rfl
  · intro env message w; rfl

/-- C2 (code defect): the three `+=` on the shared counters are unsynchronised loads and
stores.  With two input files and quota 8, the schedule in which both goroutines read
`total_files_processed` before either writes it ends, after `wg.Wait()` has returned and with
no fatal error, with `total_files_processed = 1` (the byte totals, whose updates do not
overlap in this schedule, are 10000 and 2); the sequential schedule, the only kind quota 1
admits, ends with 2. -/
theorem statistics_lost_update :
    (program 80 envOk { cfgOk with quota_limit := 8 } 1
        (.spawn :: .spawn :: List.replicate 8 (.task 0) ++ List.replicate 8 (.task 1) ++
          List.replicate 8 (.task 0) ++ List.replicate 8 (.task 1) ++ [.wait])).map
      (fun s => ((s.total_files_processed, s.total_from_files_size, s.total_out_files_size),
        (s.returned, s.world.exit, s.tasks.length)))
      = some ((1, 10000, 2), (true, none, 2)) ∧
    (program 80 envOk { cfgOk with quota_limit := 1 } 1
        (.spawn :: .spawn :: wholeJob 0 ++ wholeJob 1 ++ [.wait])).map
      (fun s => ((s.total_files_processed, s.total_from_files_size, s.total_out_files_size),
        (s.returned, s.world.exit, s.tasks.length)))
      = some ((2, 10000, 2), (true, none, 2)) ∧
    (program 80 envOk { cfgOk with quota_limit := 1 } 1
        (.spawn :: .spawn :: List.replicate 8 (.task 0) ++ [.task 1])) = none := by
  refine ⟨by decide, by decide, by decide⟩

/-! ## Claims about one job -/

/-- C5: a goroutine at the resize statement whose decoded image has width `Wo > 0` calls the
resize primitive with horizontal and vertical scale both `W / Wo` and the Lanczos3 kernel,
with no cap at 1 (`Wo < W` gives a factor above 1); over the rationals `Wo * scale = W` and
`Ho * scale = Ho * W / Wo`. -/
theorem resize_scale_is_width_ratio (env : Env) (cfg : Config) (total_files_count : Nat)
    (ep : ExportParams) (s : State) (i : Nat) (t : Task)
    (hpc : t.pc = .resize) (hw : 0 < t.image.width) :
    doResizeOneImage env cfg total_files_count ep s i t =
      (match env.resize t.image
          { hscale := (cfg.out_width : ℚ) / (t.image.width : ℚ),
            vscale := (cfg.out_width : ℚ) / (t.image.width : ℚ), kernel := .lanczos3 } with
        | .error e => some (s.fatal env ("Failed to resize image: " ++ t.fname) e)
        | .ok image => some (s.setTask i { t with image := image, pc := .exportBytes })) ∧
    (t.image.width : ℚ) * (resizeCall cfg t.image).hscale = (cfg.out_width : ℚ) ∧
    (t.image.height : ℚ) * (resizeCall cfg t.image).vscale =
      (t.image.height : ℚ) * (cfg.out_width : ℚ) / (t.image.width : ℚ) ∧
    (t.image.width < (cfg.out_width : Int) → 1 < (resizeCall cfg t.image).hscale) := by
  have hpos : (0 : ℚ) < (t.image.width : ℚ) := by exact_mod_cast hw
  have hne : (t.image.width : ℚ) ≠ 0 := ne_of_gt hpos
  refine ⟨?_, ?_, ?_, ?_⟩
  · simp only [doResizeOneImage, hpc, resizeCall, scaleOf]
  · simp only [resizeCall, scaleOf]
    field_simp
  · simp only [resizeCall, scaleOf]
    ring
  · intro hlt
    simp only [resizeCall, scaleOf]
    rw [one_lt_div hpos]
    exact_mod_cast hlt

/-- Witness for C5: an 800x600 image and target width 1920 give the scale 12/5. -/
theorem resize_scale_is_width_ratio_witness :
    ((800 : Int) : ℚ) * (resizeCall cfgOk ⟨800, 600⟩).hscale = ((1920 : Nat) : ℚ) ∧
    1 < (resizeCall cfgOk ⟨800, 600⟩).hscale :=
  have h := resize_scale_is_width_ratio envOk cfgOk 2 ⟨80⟩ (doFromDirScan cfgOk [] {}) 0
    { fname := "in/a.jpg", pc := .resize, image := ⟨800, 600⟩ } rfl (by decide)
  ⟨h.2.1, h.2.2.2 (by decide)⟩

/-- C10: `out_height` has no influence on a job: changing only its value leaves the scale
factor, the resize call, the output path, every statement of `doResizeOneImage` (statistics
updates included) and every run of the goroutines unchanged. -/
theorem out_height_has_no_influence (env : Env) (cfg : Config) (h : Nat)
    (total_files_count : Nat) (ep : ExportParams) :
    (∀ image, scaleOf { cfg with out_height := h } image = scaleOf cfg image) ∧
    (∀ image, resizeCall { cfg with out_height := h } image = resizeCall cfg image) ∧
    (∀ fname, outPath { cfg with out_height := h } fname = outPath cfg fname) ∧
    (∀ s i t, doResizeOneImage env { cfg with out_height := h } total_files_count ep s i t =
      doResizeOneImage env cfg total_files_count ep s i t) ∧
    (∀ s e, step env { cfg with out_height := h } total_files_count ep s e =
      step env cfg total_files_count ep s e) ∧
    (∀ es s, run env { cfg with out_height := h } total_files_count ep s es =
      run env cfg total_files_count ep s es) := by
  have hjob : ∀ s i t, doResizeOneImage env { cfg with out_height := h } total_files_count ep s i t
      = doResizeOneImage env cfg total_files_count ep s i t := by
    intro s i t
    unfold doResizeOneImage
    rfl
  have hstep : ∀ s e, step env { cfg with out_height := h } total_files_count ep s e =
      step env cfg total_files_count ep s e := by
    intro s e
    unfold step
    simp only [hjob]
  refine ⟨fun _ => rfl, fun _ => rfl, fun _ => rfl, hjob, hstep, ?_⟩
  intro es
  induction es with
  | nil => intro s; rfl
  | cons e es ih =>
    intro s
    simp only [run, hstep]
    cases step env cfg total_files_count ep s e with
    | none => rfl
    | some s1 => exact ih s1

/-! ## Shape of one goroutine statement -/

theorem isFatal_some_exit (env : Env) (m e : String) (w : World) :
    (isFatal env m (some e) w).exit = some 1 := by
  rw [isFatal_exit]; rfl

/-- A statement of `doResizeOneImage` either is a fatal error, which sets the exit status and
touches neither goroutines, channel nor counters, or moves goroutine `i` to its next statement
with the stated effect on channel and counter. -/
theorem doResizeOneImage_cases {env : Env} {cfg : Config} {n : Nat} {ep : ExportParams}
    {s s1 : State} {i : Nat} {t : Task} (h : doResizeOneImage env cfg n ep s i t = some s1) :
    (s1.tasks = s.tasks ∧ s1.pending = s.pending ∧ s1.quotaCh = s.quotaCh ∧
      s1.returned = s.returned ∧ s1.wg = s.wg ∧
      s1.total_files_processed = s.total_files_processed ∧
      s1.total_from_files_size = s.total_from_files_size ∧
      s1.total_out_files_size = s.total_out_files_size ∧
      s1.world.exit = some 1 ∧ t.pc.holdsSlot = true ∧ t.pc.pastCount = false) ∨
    (∃ t1, s1.tasks = s.tasks.set i t1 ∧ s1.pending = s.pending ∧ s1.returned = s.returned ∧
      s1.world.exit = s.world.exit ∧ t1.fname = t.fname ∧ t1.pc = t.pc.next ∧
      t.pc ≠ .finished ∧
      s1.quotaCh + (if t.pc = .release then 1 else 0) =
        s.quotaCh + (if t.pc = .acquire then 1 else 0) ∧
      (t.pc = .acquire → s.quotaCh < cfg.quota_limit) ∧
      (t.pc = .release → 0 < s.quotaCh) ∧
      s1.total_files_processed =
        (if t.pc = .storeCount then (t.reg + 1) % uintMod else s.total_files_processed) ∧
      (t.pc = .loadCount → t1.reg = s.total_files_processed) ∧
      s1.wg = (if t.pc = .done then s.wg - 1 else s.wg)) := by
  unfold doResizeOneImage at h
  cases hpc : t.pc <;> simp only [hpc] at h <;> (try split at h) <;> cases h <;>
    first
    | exact Or.inl ⟨rfl, rfl, rfl, rfl, rfl, rfl, rfl, rfl, isFatal_some_exit _ _ _ _, rfl, rfl⟩
    | (refine Or.inr ⟨_, rfl, ?_⟩
       first
       | (simp_all [State.setTask, PC.next, fsop]; done)
       | (simp_all [State.setTask, PC.next, fsop]; omega))

/-- The three ways a scheduling step can be taken. -/
theorem step_cases {env : Env} {cfg : Config} {n : Nat} {ep : ExportParams} {s s1 : State}
    {e : Event} (h : step env cfg n ep s e = some s1) :
    s.world.exit = none ∧ s.returned = false ∧
    ((∃ file rest, e = .spawn ∧ s.pending = file :: rest ∧
        s1 = { s with wg := s.wg + 1, tasks := s.tasks ++ [{ fname := file }], pending := rest }) ∨
     (∃ i t, e = .task i ∧ s.tasks[i]? = some t ∧ doResizeOneImage env cfg n ep s i t = some s1) ∨
     (e = .wait ∧ s.pending = [] ∧ s.wg = 0 ∧ s1 = { s with returned := true })) := by
  unfold step at h
  split at h
  · cases h
  · rename_i hlive
    have hl : s.world.exit = none ∧ s.returned = false := by
      cases hx : s.world.exit <;> cases hr : s.returned <;> simp_all
    refine ⟨hl.1, hl.2, ?_⟩
    cases e with
    | spawn =>
      cases hp : s.pending with
      | nil => simp [hp] at h
      | cons file rest =>
        simp only [hp, Option.some.injEq] at h
        exact Or.inl ⟨file, rest, rfl, rfl, h.symm⟩
    | task i =>
      cases ht : s.tasks[i]? with
      | none => simp [ht] at h
      | some t =>
        simp only [ht] at h
        exact Or.inr (Or.inl ⟨i, t, rfl, ht, h⟩)
    | wait =>
      simp only at h
      split at h
      · rename_i hw
        simp only [Option.some.injEq] at h
        exact Or.inr (Or.inr ⟨rfl, hw.1, hw.2, h.symm⟩)
      · cases h

/-- A property kept by every step holds along every run. -/
theorem run_invariant {env : Env} {cfg : Config} {n : Nat} {ep : ExportParams}
    (P : State → Prop)
    (hstep : ∀ s e s1, P s → step env cfg n ep s e = some s1 → P s1) :
    ∀ (es : List Event) (s s1 : State), P s → run env cfg n ep s es = some s1 → P s1 := by
  intro es
  induction es with
  | nil =>
    intro s s1 hP h
    simp only [run, Option.some.injEq] at h
    exact h ▸ hP
  | cons e es ih =>
    intro s s1 hP h
    simp only [run] at h
    cases hs : step env cfg n ep s e with
    | none => simp [hs] at h
    | some s2 =>
      simp only [hs] at h
      exact ih s2 s1 (hstep s e s2 hP hs) h

/-- Replacing the element at position `i` changes a count by the difference of the two
elements. -/
theorem countP_set_of_getElem? {α : Type} (p : α → Bool) :
    ∀ (l : List α) (i : Nat) (a b : α), l[i]? = some a →
      (l.set i b).countP p + (if p a then 1 else 0) = l.countP p + (if p b then 1 else 0) := by
  intro l
  induction l with
  | nil => intro i a b h; simp at h
  | cons x xs ih =>
    intro i a b h
    cases i with
    | zero =>
      simp only [List.getElem?_cons_zero, Option.some.injEq] at h
      subst h
      simp only [List.set_cons_zero, List.countP_cons]
      omega
    | succ j =>
      simp only [List.getElem?_cons_succ] at h
      have := ih j a b h
      simp only [List.set_cons_succ, List.countP_cons]
      omega

theorem set_self_of_getElem? {α : Type} :
    ∀ (l : List α) (i : Nat) (a : α), l[i]? = some a → l.set i a = l := by
  intro l
  induction l with
  | nil => intro i a h; simp at h
  | cons x xs ih =>
    intro i a h
    cases i with
    | zero =>
      simp only [List.getElem?_cons_zero, Option.some.injEq] at h
      subst h; rfl
    | succ j =>
      simp only [List.getElem?_cons_succ] at h
      simp only [List.set_cons_succ, ih j a h]

theorem countP_lt_length_of_getElem? {α : Type} (p : α → Bool) (l : List α) (i : Nat) (a : α)
    (h : l[i]? = some a) (hp : p a = false) : l.countP p < l.length := by
  have hle := List.countP_le_length p (l := l)
  have hne : l.countP p ≠ l.length := by
    intro heq
    have := (List.countP_eq_length.mp heq) a (List.getElem?_mem h)
    rw [hp] at this
    cases this
  omega

/-! ## C1: the channel bounds the goroutines at work -/

theorem slotInv_step {env : Env} {cfg : Config} {n : Nat} {ep : ExportParams}
    (s : State) (e : Event) (s1 : State) (hinv : SlotInv cfg s)
    (h : step env cfg n ep s e = some s1) : SlotInv cfg s1 := by
  obtain ⟨_, _, hc⟩ := step_cases h
  unfold SlotInv executing at *
  rcases hc with ⟨file, rest, _, _, rfl⟩ | ⟨i, t, _, ht, hd⟩ | ⟨_, _, _, rfl⟩
  · simpa [List.countP_append, PC.holdsSlot] using hinv
  · rcases doResizeOneImage_cases hd with hf |
      ⟨t1, htasks, _, _, _, _, hpc, _, hq, ha, hr, _, _, _⟩
    · rw [hf.1, hf.2.2.1]; exact hinv
    · have hcnt := countP_set_of_getElem? (fun t => t.pc.holdsSlot) s.tasks i t t1 ht
      rw [htasks]
      simp only [hpc] at hcnt
      generalize List.countP (fun t => t.pc.holdsSlot) s.tasks = a at hcnt hinv
      generalize List.countP (fun t => t.pc.holdsSlot) (s.tasks.set i t1) = b at hcnt
      cases hp : t.pc <;> simp only [hp, PC.next, PC.holdsSlot] at hcnt hq ha hr <;>
        simp at hcnt hq ha hr <;> omega
  · exact hinv

/-- C1: in every state reachable from the start of `doFromDirScan` under any schedule, the
number of goroutines that have sent on `quotaCh` and not yet received from it equals the
number of tokens in the channel and is at most the quota. -/
theorem executing_le_quota (env : Env) (cfg : Config) (n : Nat) (ep : ExportParams)
    (files : List String) (w : World) (es : List Event) (s : State)
    (h : run env cfg n ep (doFromDirScan cfg files w) es = some s) :
    executing s = s.quotaCh ∧ executing s ≤ cfg.quota_limit := by
  have hinv : SlotInv cfg s :=
    run_invariant (SlotInv cfg) slotInv_step es _ s
      ⟨by simp [doFromDirScan, executing], by simp [doFromDirScan]⟩ h
  exact ⟨hinv.1.symm, hinv.1 ▸ hinv.2⟩

/-- Witness for C1: three jobs, quota 2; after two goroutines have taken a slot the count is
2, within the quota, and the third cannot take one. -/
theorem executing_le_quota_witness :
    ∃ s, run envOk cfgOk 3 ⟨80⟩ (doFromDirScan cfgOk ["in/a.jpg", "in/b.jpg", "in/c.jpg"] {})
        [.spawn, .spawn, .spawn, .task 0, .task 1, .task 0] = some s ∧
      executing s = 2 ∧ executing s ≤ cfgOk.quota_limit ∧
      step envOk cfgOk 3 ⟨80⟩ s (.task 2) = none := by
  have hsome : ((run envOk cfgOk 3 ⟨80⟩ (doFromDirScan cfgOk ["in/a.jpg", "in/b.jpg", "in/c.jpg"] {})
      [.spawn, .spawn, .spawn, .task 0, .task 1, .task 0]).map
      (fun s => (executing s, step envOk cfgOk 3 ⟨80⟩ s (.task 2)))) = some (2, none) := by
    decide
  cases hs : run envOk cfgOk 3 ⟨80⟩ (doFromDirScan cfgOk ["in/a.jpg", "in/b.jpg", "in/c.jpg"] {})
      [.spawn, .spawn, .spawn, .task 0, .task 1, .task 0] with
  | none => rw [hs] at hsome; cases hsome
  | some s =>
    rw [hs] at hsome
    simp only [Option.map_some', Option.some.injEq, Prod.mk.injEq] at hsome
    exact ⟨s, rfl, hsome.1, (executing_le_quota envOk cfgOk 3 ⟨80⟩ _ _ _ s hs).2, hsome.2⟩

/-! ## C7: a decode failure ends the run -/

theorem pastCount_next (pc : PC) (h : pc.pastCount = true) : pc.next.pastCount = true := by
  cases pc <;> first | rfl | cases h

theorem countInv_step {env : Env} {cfg : Config} {n : Nat} {ep : ExportParams}
    (files : List String) (s : State) (e : Event) (s1 : State) (hinv : CountInv files s)
    (h : step env cfg n ep s e = some s1) : CountInv files s1 := by
  obtain ⟨_, hret, hc⟩ := step_cases h
  obtain ⟨hfiles, hcount, hreg, hwg, hwait⟩ := hinv
  unfold CountInv counted at *
  rcases hc with ⟨file, rest, _, hp, rfl⟩ | ⟨i, t, _, ht, hd⟩ | ⟨_, _, hw0, rfl⟩
  · refine ⟨?_, ?_, ?_, ?_, ?_⟩
    · rw [← hfiles, hp]; simp
    · simpa [List.countP_append, PC.pastCount] using hcount
    · intro t ht hpc
      simp only [List.mem_append, List.mem_singleton] at ht
      rcases ht with ht | rfl
      · simpa [List.countP_append, PC.pastCount] using hreg t ht hpc
      · cases hpc
    · simp [List.countP_append, hwg]
    · intro hr; simp [hret] at hr
  · rcases doResizeOneImage_cases hd with hf |
      ⟨t1, htasks, hpend, hret1, _, hfname, hpc, hnf, _, _, _, htot, hld, hwg1⟩
    · obtain ⟨e1, e2, _, e4, e5, e6, _, _, _, _, _⟩ := hf
      rw [e1, e2, e4, e5, e6]
      exact ⟨hfiles, hcount, hreg, hwg, hwait⟩
    · have hmem : t ∈ s.tasks := List.getElem?_mem ht
      have hcnt := countP_set_of_getElem? (fun t => t.pc.pastCount) s.tasks i t t1 ht
      have hfin := countP_set_of_getElem? (fun t => decide (t.pc ≠ .finished)) s.tasks i t t1 ht
      have hregt := hreg t hmem
      beta_reduce at hcnt hfin
      rw [htasks, hpend, hret1]
      rw [hpc] at hcnt hfin
      have hfn : (s.tasks.set i t1).map Task.fname = s.tasks.map Task.fname := by
        rw [List.map_set, hfname]
        exact set_self_of_getElem? _ _ _ (by simp [ht])
      generalize List.countP (fun t => t.pc.pastCount) s.tasks = a at *
      generalize List.countP (fun t => t.pc.pastCount) (s.tasks.set i t1) = b at *
      generalize List.countP (fun t => decide (t.pc ≠ .finished)) s.tasks = c at *
      generalize List.countP (fun t => decide (t.pc ≠ .finished)) (s.tasks.set i t1) = d at *
      have hmono : a ≤ b := by
        cases hb : t.pc.pastCount
        · simp only [hb, Bool.false_eq_true, if_false] at hcnt
          split at hcnt <;> omega
        · simp only [hb, pastCount_next _ hb] at hcnt; omega
      refine ⟨?_, ?_, ?_, ?_, ?_⟩
      · rw [hfn]; exact hfiles
      · rw [htot]
        split
        · rename_i hsc
          have h1 := hregt hsc
          simp only [hsc, PC.next, PC.pastCount] at hcnt
          simp at hcnt
          have := Nat.mod_le (t.reg + 1) uintMod
          omega
        · omega
      · intro u hu hupc
        rcases List.mem_or_eq_of_mem_set hu with hu | rfl
        · exact le_trans (hreg u hu hupc) hmono
        · have hl : t.pc = .loadCount := by
            rw [hpc] at hupc
            cases hp : t.pc <;> simp [hp, PC.next] at hupc ⊢
          rw [hld hl]
          exact le_trans hcount hmono
      · rw [hwg1]
        cases hp : t.pc <;> simp [hp, PC.next] at hfin hnf ⊢ <;> omega
      · intro hr; simp [hret] at hr
  · exact ⟨hfiles, hcount, hreg, hwg, fun _ => hw0⟩

theorem countInv_start (files : List String) (w : World) :
    CountInv files (doFromDirScan cfg files w) := by
  simp [CountInv, doFromDirScan, counted]

/-- C7: when the decode statement of job `k` is reached in a live run and fails, the step is
taken and ends the process with status 1; the three totals are as before that step and job
`k` is still at its decode statement, before the lines that update them; the processed
count is below the number of jobs; the goroutines started are one per job of a prefix of the
job list, job `k` among them; and no further step of any goroutine is possible. -/
theorem decode_failure_aborts (env : Env) (cfg : Config) (n : Nat) (ep : ExportParams)
    (files : List String) (w : World) (es : List Event) (s : State) (k : Nat) (t : Task)
    (err : String)
    (hrun : run env cfg n ep (doFromDirScan cfg files w) es = some s)
    (hlive : s.world.exit = none)
    (hk : s.tasks[k]? = some t) (hpc : t.pc = .decode)
    (hfail : env.decode t.fname = .error err) :
    ∃ s1, step env cfg n ep s (.task k) = some s1 ∧
      s1.world.exit = some 1 ∧
      s1.total_files_processed = s.total_files_processed ∧
      s1.total_from_files_size = s.total_from_files_size ∧
      s1.total_out_files_size = s.total_out_files_size ∧
      s1.tasks = s.tasks ∧
      s1.total_files_processed < files.length ∧
      1 ≤ files.length ∧
      files[k]? = some t.fname ∧
      s1.tasks.map Task.fname = files.take s1.tasks.length ∧
      (∀ e, step env cfg n ep s1 e = none) := by
  obtain ⟨hfiles, hcount, _, hwg, hwait⟩ :=
    run_invariant (CountInv files) (countInv_step files) es _ s (countInv_start files w) hrun
  have hmem : t ∈ s.tasks := List.getElem?_mem hk
  have hret : s.returned = false := by
    cases hr : s.returned
    · rfl
    · have h0 := hwait hr
      rw [hwg] at h0
      have : 0 < s.tasks.countP (fun t => decide (t.pc ≠ .finished)) :=
        List.countP_pos_iff.mpr ⟨t, hmem, by simp [hpc]⟩
      omega
  have hlt : counted s < s.tasks.length :=
    countP_lt_length_of_getElem? _ s.tasks k t hk (by simp [hpc, PC.pastCount])
  have hlen : s.tasks.length ≤ files.length := by
    rw [← hfiles]; simp
  have hstep : step env cfg n ep s (.task k) = some
      (s.fatal env ("Failed to open image: " ++ t.fname ++ " from " ++ cfg.from_dir) err) := by
    unfold step
    simp only [hlive, hret, hk, doResizeOneImage, hpc, hfail]
    simp
  refine ⟨_, hstep, isFatal_some_exit _ _ _ _, rfl, rfl, rfl, rfl, ?_, ?_, ?_, ?_, ?_⟩
  · show s.total_files_processed < files.length
    omega
  · omega
  · rw [← hfiles]
    have hkl : k < (s.tasks.map Task.fname).length := by
      rw [List.length_map]
      exact (List.getElem?_eq_some_iff.mp hk).1
    rw [List.getElem?_append_left hkl]
    simp [hk]
  · show s.tasks.map Task.fname = files.take s.tasks.length
    rw [← hfiles]
    exact (List.take_left' (by simp)).symm
  · intro e
    unfold step
    have : (s.fatal env ("Failed to open image: " ++ t.fname ++ " from " ++ cfg.from_dir)
        err).world.exit.isSome = true := by
      simp [State.fatal, isFatal_some_exit]
    simp [this]

/-- Witness for C7: with `b.jpg` undecodable, after job 0 has run to completion and job 1 has
taken a slot, the decode of job 1 ends the run with one file processed out of two. -/
theorem decode_failure_aborts_witness :
    ∃ s s1, run envBadB cfgOk 2 ⟨80⟩ (doFromDirScan cfgOk ["in/a.jpg", "in/b.jpg"] {})
        (.spawn :: .spawn :: wholeJob 0 ++ [.task 1]) = some s ∧
      step envBadB cfgOk 2 ⟨80⟩ s (.task 1) = some s1 ∧
      s1.world.exit = some 1 ∧ s1.total_files_processed = 1 ∧
      s1.total_files_processed < 2 := by
  have hobs : ((run envBadB cfgOk 2 ⟨80⟩ (doFromDirScan cfgOk ["in/a.jpg", "in/b.jpg"] {})
      (.spawn :: .spawn :: wholeJob 0 ++ [.task 1])).map
      (fun s => (s.world.exit, s.total_files_processed,
        s.tasks[1]?.map (fun t => (t.pc, t.fname))))) =
      some (none, 1, some (.decode, "in/b.jpg")) := by decide
  cases hs : run envBadB cfgOk 2 ⟨80⟩ (doFromDirScan cfgOk ["in/a.jpg", "in/b.jpg"] {})
      (.spawn :: .spawn :: wholeJob 0 ++ [.task 1]) with
  | none => rw [hs] at hobs; cases hobs
  | some s =>
    rw [hs] at hobs
    simp only [Option.map_some', Option.some.injEq, Prod.mk.injEq] at hobs
    obtain ⟨hlive, htot, htask⟩ := hobs
    cases hk : s.tasks[1]? with
    | none => rw [hk] at htask; cases htask
    | some t =>
      rw [hk] at htask
      simp only [Option.map_some', Option.some.injEq, Prod.mk.injEq] at htask
      obtain ⟨s1, h1, h2, h3, _, _, _, h7, _⟩ :=
        decode_failure_aborts envBadB cfgOk 2 ⟨80⟩ _ _ _ s 1 t "bad" hs hlive hk htask.1
          (by rw [htask.2]; rfl)
      exact ⟨s, s1, rfl, h1, h2, by rw [h3, htot], h7⟩

/-! ## C6: where a job writes, and that distinct inputs get distinct outputs -/

namespace filepath

theorem takeWhile_append_sep (d m : List Char) :
    (d ++ Separator :: m).takeWhile (fun x => decide (x ≠ Separator)) =
      d.takeWhile (fun x => decide (x ≠ Separator)) := by
  induction d with
  | nil => simp
  | cons x xs ih =>
    by_cases hx : x = Separator
    · simp [hx]
    · have hd : decide (x ≠ Separator) = true := by simpa using hx
      simp only [List.cons_append, List.takeWhile_cons, hd, if_true, ih]

theorem dropWhile_append_sep (d m : List Char) :
    (d ++ Separator :: m).dropWhile (fun x => decide (x ≠ Separator)) =
      d.dropWhile (fun x => decide (x ≠ Separator)) ++ Separator :: m := by
  induction d with
  | nil => simp
  | cons x xs ih =>
    by_cases hx : x = Separator
    · simp [hx]
    · have hd : decide (x ≠ Separator) = true := by simpa using hx
      simp only [List.cons_append, List.dropWhile_cons, hd, if_true, ih]

theorem dropWhile_length_le (p : Char → Bool) (d : List Char) :
    (d.dropWhile p).length ≤ d.length := by
  induction d with
  | nil => simp
  | cons x xs ih =>
    rw [List.dropWhile_cons]
    split
    · simp only [List.length_cons]; omega
    · exact le_refl _

theorem takeWhile_of_not_mem (n : List Char) (h : Separator ∉ n) :
    n.takeWhile (fun x => decide (x ≠ Separator)) = n := by
  rw [List.takeWhile_eq_self_iff]
  intro x hx
  simp only [ne_eq, decide_not, Bool.not_eq_true', decide_eq_false_iff_not]
  rintro rfl
  exact h hx

theorem dropWhile_of_not_mem (n : List Char) (h : Separator ∉ n) :
    n.dropWhile (fun x => decide (x ≠ Separator)) = [] := by
  rw [List.dropWhile_eq_nil_iff]
  intro x hx
  simp only [ne_eq, decide_not, Bool.not_eq_true', decide_eq_false_iff_not]
  rintro rfl
  exact h hx

theorem le_backtrackTo (out : List Char) (dotdot : Nat) :
    ∀ w, dotdot ≤ w → dotdot ≤ backtrackTo out dotdot w := by
  intro w
  induction w with
  | zero => intro h; simpa [backtrackTo] using h
  | succ w ih =>
    intro h
    unfold backtrackTo
    split
    · rename_i hc
      exact ih (by omega)
    · exact h

theorem backtrackTo_le (out : List Char) (dotdot : Nat) :
    ∀ w, backtrackTo out dotdot w ≤ w := by
  intro w
  induction w with
  | zero => simp [backtrackTo]
  | succ w ih =>
    unfold backtrackTo
    split
    · omega
    · exact le_refl _

theorem rootInv_backtrack (rooted : Bool) (out : List Char) (dotdot : Nat)
    (h : RootInv rooted out dotdot) (hlt : dotdot < out.length) :
    RootInv rooted (backtrack out dotdot) dotdot := by
  intro hr
  obtain ⟨h1, h2⟩ := h hr
  refine ⟨?_, h2⟩
  unfold backtrack
  have hk := le_backtrackTo out dotdot (out.length - 1) (by omega)
  cases out with
  | nil => simp at hlt
  | cons x xs =>
    cases hb : backtrackTo (x :: xs) dotdot ((x :: xs).length - 1) with
    | zero => rw [hb] at hk; omega
    | succ j => simpa using h1

theorem rootInv_append (rooted : Bool) (out extra : List Char) (dotdot : Nat)
    (h : RootInv rooted out dotdot) : RootInv rooted (out ++ extra) dotdot := by
  intro hr
  obtain ⟨h1, h2⟩ := h hr
  refine ⟨?_, h2⟩
  cases out with
  | nil => simp at h1
  | cons x xs => simpa using h1

theorem cleanLoop_nil (rooted : Bool) (fuel : Nat) (out : List Char) (dotdot : Nat) :
    cleanLoop rooted fuel [] out dotdot = out := by
  cases fuel <;> rfl

/-- The default case of the loop, for an element that is neither empty, `.` nor `..`. -/
theorem cleanLoop_default (rooted : Bool) (fuel : Nat) (c : Char) (rest out : List Char)
    (dotdot : Nat) (h1 : c ≠ Separator)
    (h2 : ¬ (c = '.' ∧ (rest = [] ∨ rest.head? = some Separator)))
    (h3 : ¬ (c = '.' ∧ rest.head? = some '.' ∧
      (rest.tail = [] ∨ rest.tail.head? = some Separator))) :
    cleanLoop rooted (fuel + 1) (c :: rest) out dotdot =
      cleanLoop rooted fuel ((c :: rest).dropWhile (fun x => decide (x ≠ Separator)))
        (withSep rooted out ++ (c :: rest).takeWhile (fun x => decide (x ≠ Separator)))
        dotdot := by
  rw [cleanLoop]
  rw [if_neg h1, if_neg h2, if_neg h3]
  rfl

/-- An entry name read by the loop is copied to the buffer after a separator where one is
due, and ends the loop. -/
theorem cleanLoop_name (rooted : Bool) (n : List Char) (hn : IsEntryName n) (fuel : Nat)
    (out : List Char) (dotdot : Nat) :
    cleanLoop rooted (fuel + 1) n out dotdot = withSep rooted out ++ n := by
  obtain ⟨hne, hsep, hdot, hdotdot⟩ := hn
  cases n with
  | nil => exact absurd rfl hne
  | cons c rest =>
    have h1 : c ≠ Separator := by
      rintro rfl; exact hsep (List.mem_cons_self _ _)
    have h2 : ¬ (c = '.' ∧ (rest = [] ∨ rest.head? = some Separator)) := by
      rintro ⟨rfl, h | h⟩
      · subst h; exact hdot rfl
      · cases rest with
        | nil => simp at h
        | cons x r =>
          simp only [List.head?_cons, Option.some.injEq] at h
          subst h
          exact hsep (by simp)
    have h3 : ¬ (c = '.' ∧ rest.head? = some '.' ∧
        (rest.tail = [] ∨ rest.tail.head? = some Separator)) := by
      rintro ⟨rfl, hh, h⟩
      cases rest with
      | nil => simp at hh
      | cons x r =>
        simp only [List.head?_cons, Option.some.injEq] at hh
        subst hh
        simp only [List.tail_cons] at h
        rcases h with h | h
        · subst h; exact hdotdot rfl
        · cases r with
          | nil => simp at h
          | cons y r2 =>
            simp only [List.head?_cons, Option.some.injEq] at h
            subst h
            exact hsep (by simp)
    rw [cleanLoop_default rooted fuel c rest out dotdot h1 h2 h3,
      dropWhile_of_not_mem _ hsep, takeWhile_of_not_mem _ hsep, cleanLoop_nil]

theorem goodDir_withSep (rooted : Bool) (out : List Char) (dotdot : Nat)
    (h : RootInv rooted out dotdot) : GoodDir (withSep rooted out) := by
  unfold withSep
  split
  · exact Or.inr ⟨out, rfl⟩
  · rename_i hc
    cases rooted with
    | true =>
      have hl : out.length = 1 := by
        by_contra hl; exact hc (Or.inl ⟨rfl, hl⟩)
      obtain ⟨h1, _⟩ := h rfl
      cases out with
      | nil => simp at hl
      | cons x xs =>
        cases xs with
        | nil =>
          simp only [List.head?_cons, Option.some.injEq] at h1
          subst h1
          exact Or.inr ⟨[], rfl⟩
        | cons y ys => simp at hl
    | false =>
      have hl : out.length = 0 := by
        by_contra hl; exact hc (Or.inr ⟨rfl, hl⟩)
      exact Or.inl (List.length_eq_zero.mp hl)

theorem cleanLoop_sep (rooted : Bool) (fuel : Nat) (rest out : List Char) (dotdot : Nat) :
    cleanLoop rooted (fuel + 1) (Separator :: rest) out dotdot =
      cleanLoop rooted fuel rest out dotdot := by
  rw [cleanLoop, if_pos rfl]

theorem cleanLoop_dot (rooted : Bool) (fuel : Nat) (c : Char) (rest out : List Char)
    (dotdot : Nat) (h1 : c ≠ Separator)
    (h2 : c = '.' ∧ (rest = [] ∨ rest.head? = some Separator)) :
    cleanLoop rooted (fuel + 1) (c :: rest) out dotdot =
      cleanLoop rooted fuel rest out dotdot := by
  rw [cleanLoop, if_neg h1, if_pos h2]

theorem cleanLoop_dotdot (rooted : Bool) (fuel : Nat) (c : Char) (rest out : List Char)
    (dotdot : Nat) (h1 : c ≠ Separator)
    (h2 : ¬ (c = '.' ∧ (rest = [] ∨ rest.head? = some Separator)))
    (h3 : c = '.' ∧ rest.head? = some '.' ∧
      (rest.tail = [] ∨ rest.tail.head? = some Separator)) :
    cleanLoop rooted (fuel + 1) (c :: rest) out dotdot =
      cleanLoop rooted fuel rest.tail (dotdotState rooted out dotdot).1
        (dotdotState rooted out dotdot).2 := by
  rw [cleanLoop, if_neg h1, if_neg h2, if_pos h3]
  unfold dotdotState
  by_cases ha : dotdot < out.length
  · rw [if_pos ha, if_pos ha]
  · rw [if_neg ha, if_neg ha]
    by_cases hb : rooted = false
    · rw [if_pos hb, if_pos hb]
    · rw [if_neg hb, if_neg hb]

theorem rootInv_dotdotState (rooted : Bool) (out : List Char) (dotdot : Nat)
    (h : RootInv rooted out dotdot) :
    RootInv rooted (dotdotState rooted out dotdot).1 (dotdotState rooted out dotdot).2 := by
  unfold dotdotState
  by_cases ha : dotdot < out.length
  · rw [if_pos ha]; exact rootInv_backtrack rooted out dotdot h ha
  · rw [if_neg ha]
    by_cases hb : rooted = false
    · rw [if_pos hb]; intro hr; rw [hb] at hr; cases hr
    · rw [if_neg hb]; exact h

theorem rootInv_withSep (rooted : Bool) (out : List Char) (dotdot : Nat)
    (h : RootInv rooted out dotdot) : RootInv rooted (withSep rooted out) dotdot := by
  unfold withSep
  split
  · exact rootInv_append rooted out _ dotdot h
  · exact h

theorem head?_append_sep_iff (rest m : List Char) :
    (rest ++ Separator :: m = [] ∨ (rest ++ Separator :: m).head? = some Separator) ↔
      (rest = [] ∨ rest.head? = some Separator) := by
  cases rest <;> simp

theorem head?_append_sep_dot (rest m : List Char) :
    (rest ++ Separator :: m).head? = some '.' ↔ rest.head? = some '.' := by
  cases rest with
  | nil => simp [Separator]
  | cons x r => simp

theorem tail_append_sep (rest m : List Char) (h : rest ≠ []) :
    (rest ++ Separator :: m).tail = rest.tail ++ Separator :: m := by
  cases rest with
  | nil => exact absurd rfl h
  | cons x r => rfl

/-- Reading a directory part `d`, a separator and an entry name: whatever `d` is, the result is
a text fixed by `d` and the loop state, empty or ending in the separator, followed by the
name. -/
theorem cleanLoop_dir (rooted : Bool) :
    ∀ (k : Nat) (d : List Char), d.length ≤ k → ∀ (out : List Char) (dotdot : Nat),
      RootInv rooted out dotdot →
      ∃ pre, GoodDir pre ∧ ∀ n, IsEntryName n → ∀ fuel, d.length + 2 ≤ fuel →
        cleanLoop rooted fuel (d ++ Separator :: n) out dotdot = pre ++ n := by
  intro k
  induction k with
  | zero =>
    intro d hd out dotdot hinv
    have hd0 : d = [] := List.length_eq_zero.mp (by omega)
    subst hd0
    refine ⟨withSep rooted out, goodDir_withSep rooted out dotdot hinv, ?_⟩
    intro n hn fuel hf
    obtain ⟨f, rfl⟩ : ∃ f, fuel = f + 2 := ⟨fuel - 2, by simp at hf; omega⟩
    rw [List.nil_append, cleanLoop_sep, cleanLoop_name rooted n hn]
  | succ k ih =>
    intro d hd out dotdot hinv
    cases d with
    | nil => exact ih [] (by simp) out dotdot hinv
    | cons c rest =>
      have hrest : rest.length ≤ k := by simpa using hd
      by_cases h1 : c = Separator
      · subst h1
        obtain ⟨pre, hg, hpre⟩ := ih rest hrest out dotdot hinv
        refine ⟨pre, hg, ?_⟩
        intro n hn fuel hf
        obtain ⟨f, rfl⟩ : ∃ f, fuel = f + 1 := ⟨fuel - 1, by simp at hf; omega⟩
        rw [List.cons_append, cleanLoop_sep]
        exact hpre n hn f (by simp at hf; omega)
      · by_cases h2 : c = '.' ∧ (rest = [] ∨ rest.head? = some Separator)
        · obtain ⟨pre, hg, hpre⟩ := ih rest hrest out dotdot hinv
          refine ⟨pre, hg, ?_⟩
          intro n hn fuel hf
          obtain ⟨f, rfl⟩ : ∃ f, fuel = f + 1 := ⟨fuel - 1, by simp at hf; omega⟩
          rw [List.cons_append, cleanLoop_dot rooted f c _ out dotdot h1
            ⟨h2.1, (head?_append_sep_iff rest n).mpr h2.2⟩]
          exact hpre n hn f (by simp at hf; omega)
        · by_cases h3 : c = '.' ∧ rest.head? = some '.' ∧
              (rest.tail = [] ∨ rest.tail.head? = some Separator)
          · have hne : rest ≠ [] := by
              rintro rfl; simp at h3
            have htl : rest.tail.length ≤ k := by
              have := List.length_tail rest; omega
            obtain ⟨pre, hg, hpre⟩ := ih rest.tail htl _ _
              (rootInv_dotdotState rooted out dotdot hinv)
            refine ⟨pre, hg, ?_⟩
            intro n hn fuel hf
            obtain ⟨f, rfl⟩ : ∃ f, fuel = f + 1 := ⟨fuel - 1, by simp at hf; omega⟩
            have h2f : ¬ (c = '.' ∧ (rest ++ Separator :: n = [] ∨
                (rest ++ Separator :: n).head? = some Separator)) := by
              rw [head?_append_sep_iff]; exact h2
            have h3f : c = '.' ∧ (rest ++ Separator :: n).head? = some '.' ∧
                ((rest ++ Separator :: n).tail = [] ∨
                  (rest ++ Separator :: n).tail.head? = some Separator) := by
              rw [head?_append_sep_dot, tail_append_sep rest n hne, head?_append_sep_iff]
              exact h3
            rw [List.cons_append, cleanLoop_dotdot rooted f c _ out dotdot h1 h2f h3f,
              tail_append_sep rest n hne]
            have hl := List.length_tail rest
            exact hpre n hn f (by simp at hf; omega)
          · have hdl : ((c :: rest).dropWhile (fun x => decide (x ≠ Separator))).length ≤ k := by
              have hd1 : decide (c ≠ Separator) = true := by simpa using h1
              rw [List.dropWhile_cons, if_pos hd1]
              exact le_trans (dropWhile_length_le _ rest) hrest
            obtain ⟨pre, hg, hpre⟩ := ih _ hdl
              (withSep rooted out ++ (c :: rest).takeWhile (fun x => decide (x ≠ Separator)))
              dotdot (rootInv_append rooted _ _ dotdot (rootInv_withSep rooted out dotdot hinv))
            refine ⟨pre, hg, ?_⟩
            intro n hn fuel hf
            obtain ⟨f, rfl⟩ : ∃ f, fuel = f + 1 := ⟨fuel - 1, by simp at hf; omega⟩
            have h2f : ¬ (c = '.' ∧ (rest ++ Separator :: n = [] ∨
                (rest ++ Separator :: n).head? = some Separator)) := by
              rw [head?_append_sep_iff]; exact h2
            have h3f : ¬ (c = '.' ∧ (rest ++ Separator :: n).head? = some '.' ∧
                ((rest ++ Separator :: n).tail = [] ∨
                  (rest ++ Separator :: n).tail.head? = some Separator)) := by
              rintro ⟨hc, hh, ht⟩
              rw [head?_append_sep_dot] at hh
              have hne : rest ≠ [] := by
                rintro rfl; simp at hh
              rw [tail_append_sep rest n hne, head?_append_sep_iff] at ht
              exact h3 ⟨hc, hh, ht⟩
            rw [List.cons_append, cleanLoop_default rooted f c _ out dotdot h1 h2f h3f,
              ← List.cons_append, takeWhile_append_sep, dropWhile_append_sep]
            exact hpre n hn f (le_trans (by
              have hd1 : decide (c ≠ Separator) = true := by simpa using h1
              rw [List.dropWhile_cons, if_pos hd1]
              have := dropWhile_length_le (fun x => decide (x ≠ Separator)) rest
              simp at hf; omega) (le_refl _))

theorem withSep_false_nil : withSep false [] = [] := by
  simp [withSep]

/-- The fuel given by `Clean`, the length of the path, is never used up: with at least that
much fuel the loop result does not depend on the fuel. -/
theorem cleanLoop_fuel (rooted : Bool) :
    ∀ (f1 f2 : Nat) (path out : List Char) (dotdot : Nat),
      path.length ≤ f1 → path.length ≤ f2 →
      cleanLoop rooted f1 path out dotdot = cleanLoop rooted f2 path out dotdot := by
  intro f1
  induction f1 with
  | zero =>
    intro f2 path out dotdot h1 _
    have : path = [] := List.length_eq_zero.mp (by omega)
    subst this
    rw [cleanLoop_nil, cleanLoop_nil]
  | succ f1 ih =>
    intro f2 path out dotdot h1 h2
    cases path with
    | nil => rw [cleanLoop_nil, cleanLoop_nil]
    | cons c rest =>
      obtain ⟨g, rfl⟩ : ∃ g, f2 = g + 1 := ⟨f2 - 1, by simp at h2; omega⟩
      have hr1 : rest.length ≤ f1 := by simpa using h1
      have hr2 : rest.length ≤ g := by simpa using h2
      have ht := List.length_tail rest
      by_cases c1 : c = Separator
      · subst c1
        rw [cleanLoop_sep, cleanLoop_sep]
        exact ih g rest out dotdot hr1 hr2
      · by_cases c2 : c = '.' ∧ (rest = [] ∨ rest.head? = some Separator)
        · rw [cleanLoop_dot rooted f1 c rest out dotdot c1 c2,
            cleanLoop_dot rooted g c rest out dotdot c1 c2]
          exact ih g rest out dotdot hr1 hr2
        · by_cases c3 : c = '.' ∧ rest.head? = some '.' ∧
              (rest.tail = [] ∨ rest.tail.head? = some Separator)
          · rw [cleanLoop_dotdot rooted f1 c rest out dotdot c1 c2 c3,
              cleanLoop_dotdot rooted g c rest out dotdot c1 c2 c3]
            exact ih g rest.tail _ _ (by omega) (by omega)
          · rw [cleanLoop_default rooted f1 c rest out dotdot c1 c2 c3,
              cleanLoop_default rooted g c rest out dotdot c1 c2 c3]
            have hd1 : decide (c ≠ Separator) = true := by simpa using c1
            have hl : ((c :: rest).dropWhile (fun x => decide (x ≠ Separator))).length
                ≤ rest.length := by
              rw [List.dropWhile_cons, if_pos hd1]
              exact dropWhile_length_le _ rest
            exact ih g _ _ _ (by omega) (by omega)

/-- Value of `Join(o, n)` for an entry name `n`: a text fixed by `o`, empty or ending in the separator,
followed by `n`. -/
theorem Join_entry (o : List Char) :
    ∃ pre, GoodDir pre ∧ ∀ n, IsEntryName n → Join o n = pre ++ n := by
  cases o with
  | nil =>
    refine ⟨[], Or.inl rfl, ?_⟩
    intro n hn
    have hne : n ≠ [] := hn.1
    cases n with
    | nil => exact absurd rfl hne
    | cons c rest =>
      have h1 : c ≠ Separator := by
        rintro rfl; exact hn.2.1 (List.mem_cons_self _ _)
      have hloop : cleanLoop false (c :: rest).length (c :: rest) [] 0 = c :: rest := by
        rw [List.length_cons, cleanLoop_name false (c :: rest) hn, withSep_false_nil]
        rfl
      simp only [Join, ne_eq, not_true_eq_false, if_false, List.cons_ne_nil, not_false_eq_true,
        if_true, Clean, if_neg h1, hloop, List.nil_append]
  | cons c rest =>
    by_cases h1 : c = Separator
    · subst h1
      obtain ⟨pre, hg, hpre⟩ := cleanLoop_dir true rest.length rest (le_refl _) [Separator] 1
        (fun _ => ⟨rfl, le_refl _⟩)
      refine ⟨pre, hg, ?_⟩
      intro n hn
      have hloop := hpre n hn (Separator :: rest ++ Separator :: n).length (by simp)
      have hne : pre ++ n ≠ [] := by
        intro h; exact hn.1 (List.append_eq_nil.mp h).2
      simp only [Join, ne_eq, List.cons_ne_nil, not_false_eq_true, if_true, List.cons_append,
        Clean]
      simp only [List.cons_append] at hloop
      rw [hloop, if_neg hne]
    · obtain ⟨pre, hg, hpre⟩ := cleanLoop_dir false (c :: rest).length (c :: rest) (le_refl _)
        [] 0 (fun h => by cases h)
      refine ⟨pre, hg, ?_⟩
      intro n hn
      have hlen : 1 ≤ n.length := by
        cases n with
        | nil => exact absurd rfl hn.1
        | cons x xs => simp
      have hloop := hpre n hn (c :: rest ++ Separator :: n).length (by simp; omega)
      have hne : pre ++ n ≠ [] := by
        intro h; exact hn.1 (List.append_eq_nil.mp h).2
      simp only [Join, ne_eq, List.cons_ne_nil, not_false_eq_true, if_true, List.cons_append,
        Clean, if_neg h1]
      simp only [List.cons_append] at hloop
      rw [hloop, if_neg hne]

/-- Value of `Base` of a directory part followed by an entry name is the name. -/
theorem Base_entry (pre n : List Char) (hg : GoodDir pre) (hn : IsEntryName n) :
    Base (pre ++ n) = n := by
  obtain ⟨hne, hsep, _, _⟩ := hn
  have hpath : pre ++ n ≠ [] := by
    intro h; exact hne (List.append_eq_nil.mp h).2
  have hrev : n.reverse ≠ [] := by simpa using hne
  have hstrip : (pre ++ n).reverse.dropWhile (fun x => decide (x = Separator)) =
      (pre ++ n).reverse := by
    rw [List.reverse_append]
    cases hr : n.reverse with
    | nil => exact absurd hr hrev
    | cons x xs =>
      have hx : x ≠ Separator := by
        rintro rfl
        have : Separator ∈ n.reverse := by rw [hr]; exact List.mem_cons_self _ _
        exact hsep (List.mem_reverse.mp this)
      have hd : decide (x = Separator) = false := by simpa using hx
      rw [List.cons_append, List.dropWhile_cons, hd]
      rfl
  have htake : ((pre ++ n).reverse).takeWhile (fun x => decide (x ≠ Separator)) = n.reverse := by
    rw [List.reverse_append]
    have hall : n.reverse.takeWhile (fun x => decide (x ≠ Separator)) = n.reverse :=
      takeWhile_of_not_mem _ (by simpa using hsep)
    rw [List.takeWhile_append, hall, if_pos rfl]
    rcases hg with rfl | ⟨q, rfl⟩
    · simp
    · simp
  unfold Base
  rw [if_neg hpath]
  simp only [hstrip, List.reverse_reverse, htake]
  rw [if_neg hne]

end filepath

/-- Sample values of `Clean`, as in the table of Go's own tests. -/
theorem clean_samples :
    filepath.Clean "abc//def//ghi".data = "abc/def/ghi".data ∧
    filepath.Clean "abc/./../def".data = "def".data ∧
    filepath.Clean "abc/def/../../../ghi/jkl/../../../mno".data = "../../mno".data ∧
    filepath.Clean "/abc/def/../../../ghi/jkl/../../../mno".data = "/mno".data ∧
    filepath.Clean "/../a".data = "/a".data ∧
    filepath.Clean "a/..".data = ".".data ∧
    filepath.Clean "".data = ".".data := by
  refine ⟨?_, ?_, ?_, ?_, ?_, ?_, ?_⟩ <;> decide

/-- Sample values of the path functions. -/
theorem path_samples :
    pathJoin "out" "a.jpg" = "out/a.jpg" ∧
    pathJoin "/x/../out/" "a.jpg" = "/out/a.jpg" ∧
    pathJoin "a/b/../../.." "a.jpg" = "../a.jpg" ∧
    pathJoin "" "a.jpg" = "a.jpg" ∧
    pathJoin "in" "*.jpg" = "in/*.jpg" ∧
    pathBase "in/a.jpg" = "a.jpg" ∧
    pathBase "in/dir///" = "dir" ∧
    pathBase "///" = "/" ∧
    pathBase "" = "." := by
  refine ⟨?_, ?_, ?_, ?_, ?_, ?_, ?_, ?_, ?_⟩ <;> decide

/-- The output path of a file found as entry `x` of directory `dir` is `Join(out_dir, x)`,
which is a text fixed by `out_dir` followed by `x`. -/
theorem outPath_entry (cfg : Config) (dir : String) :
    ∃ pre : List Char, ∀ x : String, filepath.IsEntryName x.data →
      pathBase (pathJoin dir x) = x ∧
      outPath cfg (pathJoin dir x) = pathJoin cfg.out_dir x ∧
      (outPath cfg (pathJoin dir x)).data = pre ++ x.data := by
  obtain ⟨pd, hgd, hpd⟩ := filepath.Join_entry dir.data
  obtain ⟨po, _, hpo⟩ := filepath.Join_entry cfg.out_dir.data
  refine ⟨po, ?_⟩
  intro x hx
  have hb : pathBase (pathJoin dir x) = x := by
    unfold pathBase pathJoin
    simp only [hpd x.data hx, filepath.Base_entry pd x.data hgd hx]
  refine ⟨hb, ?_, ?_⟩
  · unfold outPath
    simp only [hb]
  · unfold outPath
    simp only [hb]
    unfold pathJoin
    simp only [hpo x.data hx]

theorem writes_fsop (op : FsOp) (w : World) :
    writes (fsop op w) = writes w ++
      (match op with
        | .write path data => [(path, data)]
        | _ => []) := by
  unfold writes fsop
  cases op <;> simp

/-- Effect of one statement of `doResizeOneImage` on the write calls and on the image and
bytes of its goroutine. -/
theorem doResizeOneImage_io {env : Env} {cfg : Config} {n : Nat} {ep : ExportParams}
    {s s1 : State} {i : Nat} {t : Task} (h : doResizeOneImage env cfg n ep s i t = some s1) :
    (s1.tasks = s.tasks ∧ s1.pending = s.pending ∧ s1.returned = s.returned ∧ s1.wg = s.wg ∧
      s1.world.exit = some 1) ∨
    (∃ t1, s1.tasks = s.tasks.set i t1 ∧ s1.pending = s.pending ∧ s1.returned = s.returned ∧
      s1.world.exit = s.world.exit ∧ t1.fname = t.fname ∧ t1.pc = t.pc.next ∧
      t.pc ≠ .finished ∧
      s1.wg = (if t.pc = .done then s.wg - 1 else s.wg) ∧
      writes s1.world = writes s.world ++
        (if t.pc = .write then [(outPath cfg t.fname, t.image_bytes)] else []) ∧
      (t.pc.pastExport = true → t1.image = t.image ∧ t1.image_bytes = t.image_bytes) ∧
      (t.pc = .exportBytes →
        env.exportImg t.image ep = .ok t1.image_bytes ∧ t1.image = t.image)) := by
  unfold doResizeOneImage at h
  cases hpc : t.pc <;> simp only [hpc] at h <;> (try split at h) <;> cases h <;>
    first
    | exact Or.inl ⟨rfl, rfl, rfl, rfl, isFatal_some_exit _ _ _ _⟩
    | (refine Or.inr ⟨_, rfl, ?_⟩
       first
       | (simp_all [State.setTask, PC.next, PC.pastExport, PC.pastWrite, writes_fsop,
            fsop_exit]; done)
       | (simp_all [State.setTask, PC.next, PC.pastExport, PC.pastWrite, writes_fsop,
            fsop_exit]; simp [writes]))

theorem filterMap_set_same {α β : Type} (g : α → Option β) :
    ∀ (l : List α) (i : Nat) (a b : α), l[i]? = some a → g b = g a →
      (l.set i b).filterMap g = l.filterMap g := by
  intro l
  induction l with
  | nil => intro i a b h; simp at h
  | cons x xs ih =>
    intro i a b h hg
    cases i with
    | zero =>
      simp only [List.getElem?_cons_zero, Option.some.injEq] at h
      subst h
      simp only [List.set_cons_zero, List.filterMap_cons, hg]
    | succ j =>
      simp only [List.getElem?_cons_succ] at h
      simp only [List.set_cons_succ, List.filterMap_cons, ih j a b h hg]

theorem filterMap_set_new {α β : Type} (g : α → Option β) :
    ∀ (l : List α) (i : Nat) (a b : α) (y : β), l[i]? = some a → g a = none → g b = some y →
      ((l.set i b).filterMap g).Perm (l.filterMap g ++ [y]) := by
  intro l
  induction l with
  | nil => intro i a b y h; simp at h
  | cons x xs ih =>
    intro i a b y h ha hb
    cases i with
    | zero =>
      simp only [List.getElem?_cons_zero, Option.some.injEq] at h
      subst h
      simp only [List.set_cons_zero, List.filterMap_cons, ha, hb]
      exact (List.perm_append_singleton y _).symm
    | succ j =>
      simp only [List.getElem?_cons_succ] at h
      have hp := ih j a b y h ha hb
      simp only [List.set_cons_succ, List.filterMap_cons]
      cases g x with
      | none => exact hp
      | some z => exact List.Perm.cons z hp

theorem pastExport_next (pc : PC) (h : pc.next.pastExport = true) :
    pc = .exportBytes ∨ pc.pastExport = true := by
  cases pc <;> first | exact Or.inl rfl | exact Or.inr rfl | cases h

theorem pastWrite_next (pc : PC) : pc.next.pastWrite = (pc.pastWrite || decide (pc = .write)) := by
  cases pc <;> rfl

theorem pastExport_of_pastWrite (pc : PC) (h : pc.pastWrite = true) : pc.pastExport = true := by
  cases pc <;> first | rfl | cases h

theorem writeInv_start (env : Env) (cfg : Config) (ep : ExportParams) (files : List String)
    (w : World) : WriteInv env cfg ep files w (doFromDirScan cfg files w) := by
  refine ⟨by simp [doFromDirScan], by simp [doFromDirScan], ?_, ?_, ?_⟩
  · intro h; simp [doFromDirScan] at h
  · intro _
    have hw : writes (doFromDirScan cfg files w).world = writes w := by
      unfold doFromDirScan
      dsimp only
      split <;> rfl
    rw [hw]
    simp [doFromDirScan]
  · intro t ht; simp [doFromDirScan] at ht

theorem writeInv_step {env : Env} {cfg : Config} {n : Nat} {ep : ExportParams}
    (files : List String) (w0 : World) (s : State) (e : Event) (s1 : State)
    (hinv : WriteInv env cfg ep files w0 s)
    (h : step env cfg n ep s e = some s1) : WriteInv env cfg ep files w0 s1 := by
  obtain ⟨hlive, hret, hc⟩ := step_cases h
  obtain ⟨hfiles, hwg, hwait, hperm, hbytes⟩ := hinv
  unfold WriteInv at *
  rcases hc with ⟨file, rest, _, hp, rfl⟩ | ⟨i, t, _, ht, hd⟩ | ⟨_, hp0, hw0, rfl⟩
  · refine ⟨?_, ?_, ?_, ?_, ?_⟩
    · rw [← hfiles, hp]; simp
    · simp [List.countP_append, hwg]
    · intro hr; simp [hret] at hr
    · intro hx
      have := hperm hx
      simpa [List.filterMap_append, written, PC.pastWrite] using this
    · intro u hu hpe
      simp only [List.mem_append, List.mem_singleton] at hu
      rcases hu with hu | rfl
      · exact hbytes u hu hpe
      · cases hpe
  · rcases doResizeOneImage_io hd with ⟨e1, e2, e3, e4, e5⟩ |
      ⟨t1, htasks, hpend, hret1, hexit, hfname, hpc, hnf, hwg1, hwr, hkeep, hexp⟩
    · rw [e1, e2, e3, e4]
      refine ⟨hfiles, hwg, hwait, ?_, hbytes⟩
      intro hx; rw [e5] at hx; cases hx
    · have hmem : t ∈ s.tasks := List.getElem?_mem ht
      have hfin := countP_set_of_getElem? (fun t => decide (t.pc ≠ .finished)) s.tasks i t t1 ht
      beta_reduce at hfin
      have hfn : (s.tasks.set i t1).map Task.fname = s.tasks.map Task.fname := by
        rw [List.map_set, hfname]
        exact set_self_of_getElem? _ _ _ (by simp [ht])
      rw [htasks, hpend, hret1, hexit]
      refine ⟨?_, ?_, ?_, ?_, ?_⟩
      · rw [hfn]; exact hfiles
      · rw [hwg1]
        rw [hpc] at hfin
        generalize List.countP (fun t => decide (t.pc ≠ .finished)) s.tasks = c at hfin hwg
        generalize List.countP (fun t => decide (t.pc ≠ .finished)) (s.tasks.set i t1) = d
          at hfin
        rw [hwg]
        cases hp : t.pc <;> simp [hp, PC.next] at hfin hnf ⊢ <;> omega
      · intro hr; simp [hret] at hr
      · intro hx
        have hold := hperm hx
        rw [hwr]
        by_cases hw : t.pc = .write
        · have hnone : written cfg t = none := by simp [written, hw, PC.pastWrite]
          have hk := hkeep (by simp [hw, PC.pastExport])
          have hsome : written cfg t1 = some (outPath cfg t.fname, t.image_bytes) := by
            simp [written, hpc, hw, PC.next, PC.pastWrite, hfname, hk.2]
          have hset := filterMap_set_new (written cfg) s.tasks i t t1 _ ht hnone hsome
          rw [if_pos hw]
          refine List.Perm.trans (List.Perm.append_right _ hold) ?_
          rw [List.append_assoc]
          exact List.Perm.append_left _ hset.symm
        · have hsame : written cfg t1 = written cfg t := by
            unfold written
            rw [hpc, pastWrite_next]
            by_cases hpw : t.pc.pastWrite = true
            · have hk := hkeep (pastExport_of_pastWrite _ hpw)
              simp [hpw, hfname, hk.2]
            · simp [hpw, hw]
          rw [if_neg hw, List.append_nil,
            filterMap_set_same (written cfg) s.tasks i t t1 ht hsame]
          exact hold
      · intro u hu hpe
        rcases List.mem_or_eq_of_mem_set hu with hu | rfl
        · exact hbytes u hu hpe
        · rw [hpc] at hpe
          rcases pastExport_next _ hpe with hx | hx
          · obtain ⟨h1, h2⟩ := hexp hx
            rw [h2]; exact h1
          · obtain ⟨h1, h2⟩ := hkeep hx
            rw [h1, h2]; exact hbytes t hmem hx
  · exact ⟨hfiles, hwg, fun _ => ⟨hw0, hp0⟩, hperm, hbytes⟩

/-- After `doFromDirScan` has returned in a live process, every job has a goroutine that has
finished, and the write calls are, up to order, one per job: its output path with the bytes
`image.Export` returned for its image. -/
theorem run_writes (env : Env) (cfg : Config) (n : Nat) (ep : ExportParams)
    (files : List String) (w : World) (es : List Event) (s : State)
    (hrun : run env cfg n ep (doFromDirScan cfg files w) es = some s)
    (hret : s.returned = true) (hexit : s.world.exit = none) :
    s.tasks.map Task.fname = files ∧
    (writes s.world).Perm
      (writes w ++ s.tasks.map (fun t => (outPath cfg t.fname, t.image_bytes))) ∧
    (∀ t ∈ s.tasks, env.exportImg t.image ep = .ok t.image_bytes) := by
  obtain ⟨hfiles, hwg, hwait, hperm, hbytes⟩ :=
    run_invariant (WriteInv env cfg ep files w) (writeInv_step files w) es _ s
      (writeInv_start env cfg ep files w) hrun
  obtain ⟨hw0, hp0⟩ := hwait hret
  have hall : ∀ t ∈ s.tasks, t.pc = .finished := by
    intro t ht
    by_contra hne
    have : 0 < s.tasks.countP (fun t => decide (t.pc ≠ .finished)) :=
      List.countP_pos_iff.mpr ⟨t, ht, by simpa using hne⟩
    omega
  have hmap : s.tasks.filterMap (written cfg) =
      s.tasks.map (fun t => (outPath cfg t.fname, t.image_bytes)) := by
    rw [← List.filterMap_eq_map]
    apply List.filterMap_congr
    intro t ht
    simp [written, hall t ht, PC.pastWrite]
  refine ⟨?_, ?_, ?_⟩
  · rw [← hfiles, hp0, List.append_nil]
  · rw [← hmap]; exact hperm hexit
  · intro t ht
    exact hbytes t ht (by rw [hall t ht]; rfl)

/-- C6: the create and write statements of `doResizeOneImage` are always executed when
reached and address `filepath.Join(out_dir, filepath.Base(fname))`, the write with the encoded
bytes; for pairwise distinct entry names of one directory `dir`, the output paths of the files
`Join(dir, name)` are `Join(out_dir, name)`, pairwise distinct; and every run over these files
that starts with no file written and ends with `doFromDirScan` returned and no fatal error has
made exactly one write per input: the written paths are a rearrangement of the
`Join(out_dir, name)`, pairwise distinct and as many as the inputs, each written with the bytes
`image.Export` returned for that job. -/
theorem output_paths_distinct (env : Env) (cfg : Config) (n : Nat) (ep : ExportParams)
    (dir : String) (names : List String)
    (hvalid : ∀ x ∈ names, filepath.IsEntryName x.data) (hnodup : names.Nodup) :
    (∀ s i t, t.pc = .create → ∃ s1, doResizeOneImage env cfg n ep s i t = some s1 ∧
      s1.world.fsops = s.world.fsops ++ [.create (pathJoin cfg.out_dir (pathBase t.fname))]) ∧
    (∀ s i t, t.pc = .write → ∃ s1, doResizeOneImage env cfg n ep s i t = some s1 ∧
      s1.world.fsops = s.world.fsops ++
        [.write (pathJoin cfg.out_dir (pathBase t.fname)) t.image_bytes]) ∧
    (∀ x ∈ names, outPath cfg (pathJoin dir x) = pathJoin cfg.out_dir x) ∧
    (names.map (fun x => outPath cfg (pathJoin dir x))).Nodup ∧
    (∀ w es s, writes w = [] →
      run env cfg n ep (doFromDirScan cfg (names.map (pathJoin dir)) w) es = some s →
      s.returned = true → s.world.exit = none →
      ((writes s.world).map Prod.fst).Perm (names.map (fun x => pathJoin cfg.out_dir x)) ∧
      ((writes s.world).map Prod.fst).Nodup ∧
      (writes s.world).length = names.length ∧
      (∀ pb ∈ writes s.world, ∃ t ∈ s.tasks,
        pb = (pathJoin cfg.out_dir (pathBase t.fname), t.image_bytes) ∧
        env.exportImg t.image ep = .ok t.image_bytes)) := by
  obtain ⟨pre, hpre⟩ := outPath_entry cfg dir
  have hpaths : ∀ x ∈ names, outPath cfg (pathJoin dir x) = pathJoin cfg.out_dir x :=
    fun x hx => (hpre x (hvalid x hx)).2.1
  have hnd : (names.map (fun x => outPath cfg (pathJoin dir x))).Nodup := by
    refine List.Nodup.map_on ?_ hnodup
    intro x hx y hy hxy
    have h1 := (hpre x (hvalid x hx)).2.2
    have h2 := (hpre y (hvalid y hy)).2.2
    rw [hxy, h2] at h1
    have := List.append_cancel_left h1
    cases x; cases y
    simp only at this
    rw [this]
  refine ⟨?_, ?_, hpaths, hnd, ?_⟩
  · intro s i t hpc
    unfold doResizeOneImage
    simp only [hpc]
    split <;> exact ⟨_, rfl, by
      simp [State.fatal, State.setTask, isFatal_fsops, fsop_fsops, outPath]⟩
  · intro s i t hpc
    unfold doResizeOneImage
    simp only [hpc]
    split <;> exact ⟨_, rfl, by
      simp [State.fatal, State.setTask, isFatal_fsops, fsop_fsops, outPath]⟩
  · intro w es s hw0 hrun hret hexit
    obtain ⟨hfiles, hperm, hbytes⟩ := run_writes env cfg n ep _ w es s hrun hret hexit
    rw [hw0, List.nil_append] at hperm
    have hfst : (s.tasks.map (fun t => (outPath cfg t.fname, t.image_bytes))).map Prod.fst =
        names.map (fun x => outPath cfg (pathJoin dir x)) := by
      rw [List.map_map]
      have : (fun t : Task => outPath cfg t.fname) = (outPath cfg) ∘ Task.fname := rfl
      show List.map (Prod.fst ∘ fun t => (outPath cfg t.fname, t.image_bytes)) s.tasks = _
      have h2 : (Prod.fst ∘ fun t : Task => (outPath cfg t.fname, t.image_bytes)) =
          (outPath cfg) ∘ Task.fname := rfl
      rw [h2, ← List.map_map, hfiles, List.map_map]
      rfl
    have hp1 : ((writes s.world).map Prod.fst).Perm
        (names.map (fun x => outPath cfg (pathJoin dir x))) := by
      rw [← hfst]; exact hperm.map _
    have heq : names.map (fun x => outPath cfg (pathJoin dir x)) =
        names.map (fun x => pathJoin cfg.out_dir x) :=
      List.map_congr_left hpaths
    refine ⟨heq ▸ hp1, (List.Perm.nodup_iff hp1).mpr hnd, ?_, ?_⟩
    · have := hperm.length_eq
      rw [this, List.length_map, ← List.length_map s.tasks Task.fname, hfiles, List.length_map]
    · intro pb hpb
      have hm := hperm.subset hpb
      obtain ⟨t, ht, rfl⟩ := List.mem_map.mp hm
      exact ⟨t, ht, rfl, hbytes t ht⟩

/-- Witness for C6: `a.jpg` and `b.jpg` under `in`, both jobs run to the end and `wg.Wait()`
returns; `out/a.jpg` and `out/b.jpg` are written, each once, with the encoder's bytes. -/
theorem output_paths_distinct_witness :
    ∃ s, run envOk cfgOk 2 ⟨80⟩ (doFromDirScan cfgOk (["a.jpg", "b.jpg"].map (pathJoin "in")) {})
        (.spawn :: .spawn :: wholeJob 0 ++ wholeJob 1 ++ [.wait]) = some s ∧
      writes s.world = [("out/a.jpg", [80]), ("out/b.jpg", [80])] ∧
      ((writes s.world).map Prod.fst).Nodup ∧
      (writes s.world).length = 2 := by
  have hobs : ((run envOk cfgOk 2 ⟨80⟩
      (doFromDirScan cfgOk (["a.jpg", "b.jpg"].map (pathJoin "in")) {})
      (.spawn :: .spawn :: wholeJob 0 ++ wholeJob 1 ++ [.wait])).map
      (fun s => (s.returned, s.world.exit, writes s.world))) =
      some (true, none, [("out/a.jpg", [80]), ("out/b.jpg", [80])]) := by decide
  cases hs : run envOk cfgOk 2 ⟨80⟩
      (doFromDirScan cfgOk (["a.jpg", "b.jpg"].map (pathJoin "in")) {})
      (.spawn :: .spawn :: wholeJob 0 ++ wholeJob 1 ++ [.wait]) with
  | none => rw [hs] at hobs; cases hobs
  | some s =>
    rw [hs] at hobs
    simp only [Option.map_some', Option.some.injEq, Prod.mk.injEq] at hobs
    obtain ⟨hret, hexit, hwr⟩ := hobs
    have h := (output_paths_distinct envOk cfgOk 2 ⟨80⟩ "in" ["a.jpg", "b.jpg"] (by decide)
      (by decide)).2.2.2.2 {} _ s rfl hs hret hexit
    exact ⟨s, rfl, hwr, h.2.1, h.2.2.1⟩

end Goresize
